import Mathlib

/-!
Verification development for the FastTOML core parser
(`src/toml_parser.cpp`, `include/fasttoml/toml_parser.hpp`).

The C++ code is shallowly embedded: the input buffer is a `List Nat` of
bytes, pointers become positions (`Nat`), `std::string` values become
byte lists, the sticky `error_message_` becomes an `Option` of a byte
list, and `shared_ptr<Table>` trees become pure inductive trees.  The
parser's `current_table_` pointer (a pointer into the root tree) is
represented by a path-like location (`Loc`) into the root table.

IEEE-754 `double` values are kept abstract: a `Float` value carries the
decimal text the code would hand to `strtod`, or an `inf`/`nan` tag.  No
claim inspects a floating-point value.  Likewise the
`std::chrono::time_point` inside a parsed offset datetime is kept as its
integer second count plus the fractional-digit text.
-/

set_option maxHeartbeats 1000000
set_option maxRecDepth 10000

namespace FastToml

/-- A key, as the bytes of the C++ `std::string` (a byte is a `Nat`,
always < 256 in real inputs). -/
abbrev Key := List Nat

/-- Abstracted IEEE-754 double: either the decimal text passed to
`strtod`/`std::stod`, or one of the special values produced for
`inf`/`nan` literals, or the `0.0` returned on error recovery. -/
inductive FloatRepr where
  | fromDecimal (text : List Nat)
  | posInf
  | negInf
  | posNan
  | negNan
  | zero
  deriving Repr, DecidableEq

/-- The `TomlValue` variant (`toml_parser.hpp`): Integer, Float, Boolean,
String, DateTime, DateTimeOffset, TablePtr, ArrayPtr.  Tables are
association lists of keys to values; arrays are lists of values.
`datetime` (plain `std::chrono::time_point`) is only produced by the dead
`parse_datetime` helper and carries its second count.  `datetimeOffset`
carries the integer seconds of `tm_to_time_t_utc`, the fractional-second
digit text, and the offset in minutes. -/
inductive TomlValue where
  | integer (v : Int)
  | float (v : FloatRepr)
  | boolean (b : Bool)
  | str (s : List Nat)
  | datetime (seconds : Int)
  | datetimeOffset (tSeconds : Int) (fracDigits : List Nat) (offsetMinutes : Int)
  | table (entries : List (Key × TomlValue))
  | array (elems : List TomlValue)
  deriving Repr

/-- A TOML table: the entries of the C++ `Table::values` map.
`std::unordered_map` is unordered; we keep insertion order, which no
claim observes. -/
abbrev Table := List (Key × TomlValue)

/-- `Table::values.find(key)` -/
def tfind? (t : Table) (k : Key) : Option TomlValue :=
  match t with
  | [] => none
  | (k', v) :: rest => if k' = k then some v else tfind? rest k

/-- `Table::has(key)` -/
def thas (t : Table) (k : Key) : Bool :=
  (tfind? t k).isSome

/-- `Table::set(key, value)` — `values[key] = value`, overwriting any
existing binding. -/
def tset (t : Table) (k : Key) (v : TomlValue) : Table :=
  match t with
  | [] => [(k, v)]
  | (k', v') :: rest => if k' = k then (k, v) :: rest else (k', v') :: tset rest k v

/-- The `array_of_tables_paths_` member: a set of dotted paths,
modelled as a duplicate-free list. -/
abbrev AotPaths := List (List Key)

/-- `std::set::find(...) != end()` -/
def aotMem (aot : AotPaths) (p : List Key) : Bool :=
  match aot with
  | [] => false
  | q :: rest => if q = p then true else aotMem rest p

/-- `std::set::insert` -/
def aotInsert (aot : AotPaths) (p : List Key) : AotPaths :=
  if aotMem aot p then aot else p :: aot

/-! ## simd_utils: whitespace/delimiter fast path -/

/-- `simd_utils::is_whitespace`: space, tab, CR, LF. -/
def isWsByte (b : Nat) : Bool :=
  b = 0x20 || b = 0x09 || b = 0x0D || b = 0x0A

/-- `simd_utils::is_whitespace_no_nl`: space, tab, CR. -/
def isWsNoNlByte (b : Nat) : Bool :=
  b = 0x20 || b = 0x09 || b = 0x0D

/-- The scalar scanning loop `while (ptr < end && p(*ptr)) ++ptr;`
shared by the scalar versions of `skip_whitespace`,
`skip_whitespace_no_nl` (and, with `p = (· ≠ c)`, `find_char_simd`).
Positions index into `input`; the returned position is the new `ptr`. -/
def scanWhile (p : Nat → Bool) (input : List Nat) (pos : Nat) : Nat :=
  if h : pos < input.length ∧ p (input.getD pos 0) then
    scanWhile p input (pos + 1)
  else pos
termination_by input.length - pos
decreasing_by
  have := h.1
  omega

/-- `_mm256_movemask_epi8` over the comparison of each chunk byte with
the target class: bit `i` of the result is set iff `p` holds of byte `i`. -/
def movemask (p : Nat → Bool) : List Nat → Nat
  | [] => 0
  | b :: rest => (bif p b then 1 else 0) + 2 * movemask p rest

/-- Count-trailing-zeros (`ctz`, i.e. `__builtin_ctz`) on a value known
to fit in `fuel` bits; the code only applies it to nonzero 32-bit
masks. -/
def ctzRec (fuel : Nat) (x : Nat) : Nat :=
  match fuel with
  | 0 => 0
  | fuel + 1 => if x % 2 = 1 then 0 else 1 + ctzRec fuel (x / 2)

/-- The AVX2 loop of `skip_whitespace`/`skip_whitespace_no_nl` with
whitespace class `p`: while ≥ 32 bytes remain, take a 32-byte chunk,
OR the per-character compare masks into `mask`; if some byte is not in
the class, jump to `ptr + ctz(~mask)`; otherwise advance 32 bytes.
The `end - ptr < 32` entry check and the scalar tail are both the
`scanWhile` fallback. -/
def avx2Scan (p : Nat → Bool) (input : List Nat) (pos : Nat) : Nat :=
  if h : 32 ≤ input.length - pos then
    let chunk := (input.drop pos).take 32
    let mask := movemask p chunk
    if mask = 0xFFFFFFFF then avx2Scan p input (pos + 32)
    else pos + ctzRec 32 (0xFFFFFFFF - mask)
  else scanWhile p input pos
termination_by input.length - pos
decreasing_by omega

/-- AVX2 `skip_whitespace`. -/
def skip_whitespace_avx2 (input : List Nat) (pos : Nat) : Nat :=
  avx2Scan isWsByte input pos

/-- AVX2 `skip_whitespace_no_nl`. -/
def skip_whitespace_no_nl_avx2 (input : List Nat) (pos : Nat) : Nat :=
  avx2Scan isWsNoNlByte input pos

/-- Scalar `skip_whitespace`. -/
def skip_whitespace_scalar (input : List Nat) (pos : Nat) : Nat :=
  scanWhile isWsByte input pos

/-- Scalar `skip_whitespace_no_nl`. -/
def skip_whitespace_no_nl_scalar (input : List Nat) (pos : Nat) : Nat :=
  scanWhile isWsNoNlByte input pos

/-- Scalar `find_char_simd`: `while (ptr < end && *ptr != c) ++ptr;`. -/
def find_char_scalar (input : List Nat) (pos : Nat) (c : Nat) : Nat :=
  scanWhile (fun b => !(b = c)) input pos

/-- AVX2 `find_char_simd`: compare each chunk byte against `c`; if the
mask is nonzero jump to `ptr + ctz(mask)`, else advance 32 bytes; fall
back to the scalar loop below 32 remaining bytes. -/
def find_char_avx2 (input : List Nat) (pos : Nat) (c : Nat) : Nat :=
  if h : 32 ≤ input.length - pos then
    let mask := movemask (fun b => b = c) ((input.drop pos).take 32)
    if mask = 0 then find_char_avx2 input (pos + 32) c
    else pos + ctzRec 32 mask
  else scanWhile (fun b => !(b = c)) input pos
termination_by input.length - pos
decreasing_by omega

/-! ## Cursor, scanner and error primitives -/

/-- The bytes of a C++ string literal (UTF-8). -/
def strBytes (s : String) : List Nat :=
  s.toUTF8.toList.map UInt8.toNat

/-- The cursor part of the parser state: `current_` as an offset into
the input (the input buffer itself is passed separately and never
changes during a parse), and the sticky `error_message_` (`none` is the
empty string). -/
structure Cursor where
  pos : Nat
  err : Option (List Nat)
  deriving Repr

/-- `TomlParser::eof`: `current_ >= end_`. -/
def eof (input : List Nat) (st : Cursor) : Bool :=
  input.length ≤ st.pos

/-- `TomlParser::peek`: the current byte, or NUL at or past the end. -/
def peek (input : List Nat) (st : Cursor) : Nat :=
  if eof input st then 0 else input.getD st.pos 0

/-- `TomlParser::advance`: return the current byte and step the cursor,
or return NUL and stay put at or past the end. -/
def advance (input : List Nat) (st : Cursor) : Nat × Cursor :=
  if eof input st then (0, st)
  else (input.getD st.pos 0, { st with pos := st.pos + 1 })

/-- `TomlParser::set_error`: record the message iff no error is
recorded yet (sticky first-error semantics). -/
def set_error (msg : List Nat) (st : Cursor) : Cursor :=
  if st.err = none then { st with err := some msg } else st

/-- `TomlParser::expect_char`. -/
def expect_char (input : List Nat) (c : Nat) (st : Cursor) : Cursor :=
  if eof input st ∨ ¬ peek input st = c then
    set_error (strBytes "Expected '" ++ [c] ++ strBytes "' but found '" ++
      (if eof input st then strBytes "EOF" else [peek input st]) ++ strBytes "'") st
  else (advance input st).2

/-- `TomlParser::skip_whitespace` (the SIMD and scalar scanners agree;
we use the scalar form). -/
def skip_whitespace (input : List Nat) (st : Cursor) : Cursor :=
  { st with pos := skip_whitespace_scalar input st.pos }

/-- `TomlParser::skip_whitespace_no_nl`. -/
def skip_whitespace_no_nl (input : List Nat) (st : Cursor) : Cursor :=
  { st with pos := skip_whitespace_no_nl_scalar input st.pos }

/-- `TomlParser::skip_comment`: if at `#`, consume to (not including)
the next LF or the end of input. -/
def skip_comment (input : List Nat) (st : Cursor) : Cursor :=
  if peek input st = 0x23 then
    { st with pos := scanWhile (fun b => !(b = 0x0A)) input st.pos }
  else st

/-- The sub-list `input[a..b)` (the bytes of `std::string(p+a, p+b)`). -/
def byteSlice (input : List Nat) (a b : Nat) : List Nat :=
  (input.drop a).take (b - a)

/-! ## Escape sequences and strings -/

/-- `hex_digit`: value of a hex digit byte, `-1` if not a hex digit. -/
def hex_digit (c : Nat) : Int :=
  if 0x30 ≤ c ∧ c ≤ 0x39 then (c : Int) - 0x30
  else if 0x41 ≤ c ∧ c ≤ 0x46 then (c : Int) - 0x41 + 10
  else if 0x61 ≤ c ∧ c ≤ 0x66 then (c : Int) - 0x61 + 10
  else -1

/-- `append_utf8`: appends the UTF-8 encoding of `cp` to `out`;
returns `false` (appending nothing) for surrogates and codepoints
above U+10FFFF.  `(cp << 4) | d`-style byte assembly is written with
the equivalent arithmetic on `Nat`. -/
def append_utf8 (out : List Nat) (cp : Nat) : Bool × List Nat :=
  if 0x10FFFF < cp ∨ (0xD800 ≤ cp ∧ cp ≤ 0xDFFF) then (false, out)
  else if cp ≤ 0x7F then (true, out ++ [cp])
  else if cp ≤ 0x7FF then
    (true, out ++ [0xC0 ||| (cp >>> 6), 0x80 ||| (cp &&& 0x3F)])
  else if cp ≤ 0xFFFF then
    (true, out ++ [0xE0 ||| (cp >>> 12), 0x80 ||| ((cp >>> 6) &&& 0x3F), 0x80 ||| (cp &&& 0x3F)])
  else
    (true, out ++ [0xF0 ||| (cp >>> 18), 0x80 ||| ((cp >>> 12) &&& 0x3F),
                   0x80 ||| ((cp >>> 6) &&& 0x3F), 0x80 ||| (cp &&& 0x3F)])

/-- Outcome of the hex-digit loop in `parse_unicode_escape`. -/
inductive HexScan where
  | ok (cp : Nat)
  | badDigit
  | truncated
  deriving Repr, DecidableEq

/-- The `for (i = 0; i < num_hex_digits && !eof(); ++i)` loop of
`parse_unicode_escape`: accumulate `cp = (cp << 4) | d` (written as
`cp * 16 + d`); an invalid digit records its error inside the loop. -/
def parse_unicode_escape_go (input : List Nat) (n : Nat) (cp : Nat) (st : Cursor) :
    HexScan × Cursor :=
  match n with
  | 0 => (.ok cp, st)
  | m + 1 =>
    if eof input st then (.truncated, st)
    else
      let d := hex_digit (peek input st)
      if d < 0 then (.badDigit, set_error (strBytes "Invalid hex digit in Unicode escape") st)
      else parse_unicode_escape_go input m (cp * 16 + d.toNat) (advance input st).2

/-- `TomlParser::parse_unicode_escape`: decode `num_hex_digits` hex
digits into a codepoint; on any failure record an error and return the
U+FFFD replacement bytes `EF BF BD`; otherwise return the UTF-8
encoding of the codepoint. -/
def parse_unicode_escape (input : List Nat) (numHexDigits : Nat) (st : Cursor) :
    List Nat × Cursor :=
  match parse_unicode_escape_go input numHexDigits 0 st with
  | (.badDigit, st') => ([0xEF, 0xBF, 0xBD], st')
  | (.truncated, st') => ([0xEF, 0xBF, 0xBD], set_error (strBytes "Unicode escape truncated") st')
  | (.ok cp, st') =>
    if 0x10FFFF < cp ∨ (0xD800 ≤ cp ∧ cp ≤ 0xDFFF) then
      ([0xEF, 0xBF, 0xBD], set_error (strBytes "Invalid Unicode codepoint in escape") st')
    else ((append_utf8 [] cp).2, st')

/-- `TomlParser::parse_escape_sequence` (the backslash itself has
already been consumed by the caller). -/
def parse_escape_sequence (input : List Nat) (st : Cursor) : List Nat × Cursor :=
  if eof input st then ([], set_error (strBytes "Unexpected end of string in escape sequence") st)
  else
    let (c, st1) := advance input st
    if c = 0x62 then ([0x08], st1)
    else if c = 0x74 then ([0x09], st1)
    else if c = 0x6E then ([0x0A], st1)
    else if c = 0x66 then ([0x0C], st1)
    else if c = 0x72 then ([0x0D], st1)
    else if c = 0x22 then ([0x22], st1)
    else if c = 0x5C then ([0x5C], st1)
    else if c = 0x75 then parse_unicode_escape input 4 st1
    else if c = 0x55 then parse_unicode_escape input 8 st1
    else
      ([], set_error (strBytes "Invalid escape sequence in string: \\" ++ [c] ++
        strBytes " (allowed: \\b \\t \\n \\f \\r \\\" \\\\ \\uXXXX \\UXXXXXXXX)") st1)

/-- The scanning loop of `parse_basic_string`
(`while (!eof() && peek() != '"') ...`), with fuel for the unbounded
iteration count; adequate fuel (one unit per iteration, at most the
remaining input length) reproduces the C++ loop exactly. -/
def parse_basic_string_go (input : List Nat) (fuel : Nat) (acc : List Nat) (st : Cursor) :
    List Nat × Cursor :=
  match fuel with
  | 0 => (acc, st)
  | fuel + 1 =>
    if ¬ eof input st ∧ ¬ peek input st = 0x22 then
      if peek input st = 0x5C then
        let st1 := (advance input st).2
        let (e, st2) := parse_escape_sequence input st1
        parse_basic_string_go input fuel (acc ++ e) st2
      else
        let (c, st1) := advance input st
        parse_basic_string_go input fuel (acc ++ [c]) st1
    else (acc, st)

/-- `TomlParser::parse_basic_string`. -/
def parse_basic_string (input : List Nat) (fuel : Nat) (st : Cursor) : List Nat × Cursor :=
  let st1 := expect_char input 0x22 st
  let (s, st2) := parse_basic_string_go input fuel [] st1
  (s, expect_char input 0x22 st2)

/-- The scanning loop of `parse_literal_string`. -/
def parse_literal_string_go (input : List Nat) (fuel : Nat) (acc : List Nat) (st : Cursor) :
    List Nat × Cursor :=
  match fuel with
  | 0 => (acc, st)
  | fuel + 1 =>
    if ¬ eof input st ∧ ¬ peek input st = 0x27 then
      let (c, st1) := advance input st
      parse_literal_string_go input fuel (acc ++ [c]) st1
    else (acc, st)

/-- `TomlParser::parse_literal_string`. -/
def parse_literal_string (input : List Nat) (fuel : Nat) (st : Cursor) : List Nat × Cursor :=
  let st1 := expect_char input 0x27 st
  let (s, st2) := parse_literal_string_go input fuel [] st1
  (s, expect_char input 0x27 st2)

/-- The scanning loop of `parse_multiline_basic_string`.  A run of `n`
consecutive quotes is consumed at once (the inner
`while (!eof() && peek() == '"')` loop); for `n ≥ 3` the first `n - 3`
run quotes become content and the string closes iff `n = 3` or the run
is followed by end of input, LF, or CR; shorter runs are all content. -/
def parse_multiline_basic_string_go (input : List Nat) (fuel : Nat) (acc : List Nat)
    (st : Cursor) : List Nat × Cursor :=
  match fuel with
  | 0 => (acc, st)
  | fuel + 1 =>
    if eof input st then (acc, set_error (strBytes "Unclosed multiline basic string") st)
    else if peek input st = 0x22 then
      let stop := scanWhile (fun b => b = 0x22) input st.pos
      let n := stop - st.pos
      let st1 : Cursor := { st with pos := stop }
      if 3 ≤ n then
        let acc1 := acc ++ List.replicate (n - 3) 0x22
        if n = 3 ∨ eof input st1 ∨ peek input st1 = 0x0A ∨ peek input st1 = 0x0D then (acc1, st1)
        else parse_multiline_basic_string_go input fuel acc1 st1
      else parse_multiline_basic_string_go input fuel (acc ++ List.replicate n 0x22) st1
    else if peek input st = 0x5C then
      let st1 := (advance input st).2
      let (e, st2) := parse_escape_sequence input st1
      parse_multiline_basic_string_go input fuel (acc ++ e) st2
    else
      let (c, st1) := advance input st
      parse_multiline_basic_string_go input fuel (acc ++ [c]) st1

/-- `TomlParser::parse_multiline_basic_string` (the opening `"""` has
already been consumed): discard one leading LF, then scan. -/
def parse_multiline_basic_string (input : List Nat) (fuel : Nat) (st : Cursor) :
    List Nat × Cursor :=
  let st0 := if ¬ eof input st ∧ peek input st = 0x0A then (advance input st).2 else st
  parse_multiline_basic_string_go input fuel [] st0

/-- The scanning loop of `parse_multiline_literal_string` (same run
logic as the basic form, with `'` and no escapes). -/
def parse_multiline_literal_string_go (input : List Nat) (fuel : Nat) (acc : List Nat)
    (st : Cursor) : List Nat × Cursor :=
  match fuel with
  | 0 => (acc, st)
  | fuel + 1 =>
    if eof input st then (acc, set_error (strBytes "Unclosed multiline literal string") st)
    else if peek input st = 0x27 then
      let stop := scanWhile (fun b => b = 0x27) input st.pos
      let n := stop - st.pos
      let st1 : Cursor := { st with pos := stop }
      if 3 ≤ n then
        let acc1 := acc ++ List.replicate (n - 3) 0x27
        if n = 3 ∨ eof input st1 ∨ peek input st1 = 0x0A ∨ peek input st1 = 0x0D then (acc1, st1)
        else parse_multiline_literal_string_go input fuel acc1 st1
      else parse_multiline_literal_string_go input fuel (acc ++ List.replicate n 0x27) st1
    else
      let (c, st1) := advance input st
      parse_multiline_literal_string_go input fuel (acc ++ [c]) st1

/-- `TomlParser::parse_multiline_literal_string`. -/
def parse_multiline_literal_string (input : List Nat) (fuel : Nat) (st : Cursor) :
    List Nat × Cursor :=
  let st0 := if ¬ eof input st ∧ peek input st = 0x0A then (advance input st).2 else st
  parse_multiline_literal_string_go input fuel [] st0

/-! ## Keys -/

/-- `std::isalnum` in the C locale, on a byte. -/
def isAlnumByte (b : Nat) : Bool :=
  (0x30 ≤ b && b ≤ 0x39) || (0x41 ≤ b && b ≤ 0x5A) || (0x61 ≤ b && b ≤ 0x7A)

/-- A bare-key byte: alphanumeric, `_`, or `-`. -/
def isBareKeyByte (b : Nat) : Bool :=
  isAlnumByte b || b = 0x5F || b = 0x2D

/-- `TomlParser::parse_key`: quoted keys reuse the string parsers
(including the multiline forms, selected by a three-quote lookahead
`current_ + 2 < end_`); a bare key is a scan of bare-key bytes.  An
empty bare key records "Expected key" and consumes one byte to make
progress. -/
def parse_key (input : List Nat) (fuel : Nat) (st0 : Cursor) : List Nat × Cursor :=
  let st := skip_whitespace_no_nl input st0
  if peek input st = 0x22 then
    if st.pos + 2 < input.length ∧ input.getD (st.pos + 1) 0 = 0x22 ∧
        input.getD (st.pos + 2) 0 = 0x22 then
      parse_multiline_basic_string input fuel { st with pos := st.pos + 3 }
    else parse_basic_string input fuel st
  else if peek input st = 0x27 then
    if st.pos + 2 < input.length ∧ input.getD (st.pos + 1) 0 = 0x27 ∧
        input.getD (st.pos + 2) 0 = 0x27 then
      parse_multiline_literal_string input fuel { st with pos := st.pos + 3 }
    else parse_literal_string input fuel st
  else
    let stop := scanWhile isBareKeyByte input st.pos
    let key := byteSlice input st.pos stop
    let st1 : Cursor := { st with pos := stop }
    if key = [] then
      let st2 := set_error (strBytes "Expected key") st1
      ([], if eof input st2 then st2 else (advance input st2).2)
    else (key, st1)

/-- The `while (!eof() && peek() == '.')` loop of `parse_dotted_key`. -/
def parse_dotted_key_go (input : List Nat) (fuel : Nat) (acc : List Key) (st : Cursor) :
    List Key × Cursor :=
  match fuel with
  | 0 => (acc, st)
  | fuel + 1 =>
    if ¬ eof input st ∧ peek input st = 0x2E then
      let st1 := (advance input st).2
      let st2 := skip_whitespace_no_nl input st1
      let (k, st3) := parse_key input fuel st2
      let st4 := skip_whitespace_no_nl input st3
      parse_dotted_key_go input fuel (acc ++ [k]) st4
    else (acc, st)

/-- `TomlParser::parse_dotted_key`. -/
def parse_dotted_key (input : List Nat) (fuel : Nat) (st : Cursor) : List Key × Cursor :=
  let (k, st1) := parse_key input fuel st
  let st2 := skip_whitespace_no_nl input st1
  parse_dotted_key_go input fuel [k] st2

/-! ## Dates and times -/

/-- `std::isdigit` on a byte. -/
def isDigitByte (b : Nat) : Bool :=
  0x30 ≤ b && b ≤ 0x39

/-- The digit loop of the static `parse_int` helper: consume up to
`maxD` digits (counting from `n` already read), accumulating
`v = v * 10 + digit`.  Returns the value, the new position, and the
digit count. -/
def parse_int_go (input : List Nat) (maxD : Nat) (pos : Nat) (v : Int) (n : Nat) :
    Int × Nat × Nat :=
  if _h : pos < input.length ∧ n < maxD ∧ isDigitByte (input.getD pos 0) then
    parse_int_go input maxD (pos + 1) (v * 10 + ((input.getD pos 0 : Int) - 0x30)) (n + 1)
  else (v, pos, n)
termination_by maxD - n
decreasing_by omega

/-- The static `parse_int(ptr, end, min_digits, max_digits, out)`: fails
without moving when the first byte is not a digit; otherwise consumes up
to `maxD` digits and fails (with the pointer already advanced) when
fewer than `minD` were read.  Returns `(ok, value, newPos)`. -/
def parse_int (input : List Nat) (pos : Nat) (minD maxD : Nat) : Bool × Int × Nat :=
  if input.length ≤ pos ∨ ¬ isDigitByte (input.getD pos 0) then (false, 0, pos)
  else
    let (v, pos', n) := parse_int_go input maxD pos 0 0
    if n < minD then (false, v, pos') else (true, v, pos')

/-- `is_value_terminator`: space, tab, LF, CR, comma, `]`, right brace,
`#`. -/
def is_value_terminator (b : Nat) : Bool :=
  b = 0x20 || b = 0x09 || b = 0x0A || b = 0x0D || b = 0x2C || b = 0x5D || b = 0x7D || b = 0x23

/-- The `days_in_month` table. -/
def days_in_month_table : List Int :=
  [31, 28, 31, 30, 31, 30, 31, 31, 30, 31, 30, 31]

/-- The Gregorian leap-year test used throughout the source:
`y % 4 == 0 && (y % 100 != 0 || y % 400 == 0)`. -/
def isLeapYear (y : Int) : Bool :=
  y % 4 = 0 && !(y % 100 = 0 && !(y % 400 = 0))

/-- `max_day_in_month(year, month)` (month is 1–12 at every call). -/
def max_day_in_month (year month : Int) : Int :=
  let maxd := days_in_month_table.getD (month - 1).toNat 0
  if month = 2 ∧ isLeapYear year then 29 else maxd

/-- The year loop of `days_from_1970`:
`for (yy = 1970; yy < y; ++yy) days += leap ? 366 : 365` (zero
iterations when `y ≤ 1970`). -/
def days_years_from_1970 (y : Nat) : Int :=
  if y ≤ 1970 then 0
  else days_years_from_1970 (y - 1) + (if isLeapYear ((y : Int) - 1) then 366 else 365)
termination_by y

/-- `days_from_1970(y, m, d)`: whole years since 1970, plus the days of
the completed months (`for (mm = 0; mm < m - 1; ++mm)`), plus a leap
day when past February of a leap year, plus `d - 1`. -/
def days_from_1970 (y m d : Int) : Int :=
  let days := days_years_from_1970 y.toNat + (days_in_month_table.take (m - 1).toNat).sum
  let days := if 2 < m ∧ isLeapYear y then days + 1 else days
  days + (d - 1)

/-- `tm_to_time_t_utc`: seconds since the epoch from broken-down UTC
fields. -/
def tm_to_time_t_utc (year month day hour minute second : Int) : Int :=
  days_from_1970 year month day * 86400 + hour * 3600 + minute * 60 + second

/-- The tail of `try_parse_datetime` after time and offset scanning
(lines 961–992): build `t` with `tm_to_time_t_utc`; with an offset,
either preserve the raw lexeme (year outside 1970–2037, with a space
separator normalized to `T`) or return the instant shifted back by the
offset; without one, reject trailing garbage and preserve the lexeme. -/
def try_parse_datetime_finish (input : List Nat) (st : Cursor) (start : Nat)
    (year month day hour minute second : Int) (fracDigits : List Nat) (p : Nat)
    (hasOffset : Bool) (offsetMinutes : Int) : Option TomlValue × Cursor :=
  let t := tm_to_time_t_utc year month day hour minute second
  if t < 0 then (none, st)
  else if hasOffset then
    if year < 1970 ∨ 2037 < year then
      let raw := byteSlice input start p
      let raw := if 19 ≤ raw.length ∧ raw.getD 10 0 = 0x20 then raw.set 10 0x54 else raw
      (some (.str raw), { st with pos := p })
    else
      (some (.datetimeOffset (t - 60 * offsetMinutes) fracDigits offsetMinutes),
        { st with pos := p })
  else if p < input.length ∧ ¬ is_value_terminator (input.getD p 0) then
    (none, set_error (strBytes "Invalid datetime: unexpected character after time") st)
  else (some (.str (byteSlice input start p)), { st with pos := p })

/-- The offset scan of `try_parse_datetime` (lines 942–960 of the
source), entered with `p4` just past the seconds and fraction: `Z`/`z`
is offset zero; a sign starts the short-circuit
`parse_int && oh <= 23 && ':' && parse_int && om <= 59` chain whose
failure records the offset error; otherwise there is no offset. -/
def try_parse_datetime_offset_part (input : List Nat) (st : Cursor) (start : Nat)
    (year month day hour minute second : Int) (fracDigits : List Nat) (p4 : Nat) :
    Option TomlValue × Cursor :=
  if p4 < input.length ∧ (input.getD p4 0 = 0x5A ∨ input.getD p4 0 = 0x7A) then
    try_parse_datetime_finish input st start year month day hour minute second
      fracDigits (p4 + 1) true 0
  else if p4 + 1 < input.length ∧ (input.getD p4 0 = 0x2B ∨ input.getD p4 0 = 0x2D) then
    let sign := input.getD p4 0
    let (okOh, oh, q1) := parse_int input (p4 + 1) 2 2
    if okOh ∧ oh ≤ 23 ∧ q1 < input.length ∧ input.getD q1 0 = 0x3A then
      let (okOm, om, q2) := parse_int input (q1 + 1) 2 2
      if okOm ∧ om ≤ 59 then
        try_parse_datetime_finish input st start year month day hour minute second
          fracDigits q2 true ((oh * 60 + om) * (if sign = 0x2D then -1 else 1))
      else (none, set_error (strBytes "Invalid datetime: offset must be Z or ±HH:MM") st)
    else (none, set_error (strBytes "Invalid datetime: offset must be Z or ±HH:MM") st)
  else
    try_parse_datetime_finish input st start year month day hour minute second
      fracDigits p4 false 0

/-- The `HH:MM:SS(.frac)?(offset)?` tail of `try_parse_datetime`, entered
with `p` just past the `T`/`t`/space separator (the `end_ - p >= 8` test
and everything after it, lines 908–1000 of the source).  `st.pos` is
still the entry position `start`; every "restore and return nothing"
path therefore leaves the cursor where it was. -/
def try_parse_datetime_time_part (input : List Nat) (st : Cursor) (start : Nat)
    (year month day : Int) (p : Nat) : Option TomlValue × Cursor :=
  if 8 ≤ input.length - p then
    let (okH, hour, p1) := parse_int input p 2 2
    if ¬ okH ∨ 23 < hour then
      (none, set_error (strBytes "Invalid datetime: hour must be 00-23") st)
    else if input.length ≤ p1 ∨ ¬ input.getD p1 0 = 0x3A then (none, st)
    else
      let (okMin, minute, p2) := parse_int input (p1 + 1) 2 2
      if ¬ okMin ∨ 59 < minute then
        (none, set_error (strBytes "Invalid datetime: minute must be 00-59") st)
      else if input.length ≤ p2 ∨ ¬ input.getD p2 0 = 0x3A then (none, st)
      else
        let (okS, second, p3) := parse_int input (p2 + 1) 2 2
        if ¬ okS ∨ 60 < second then
          (none, set_error (strBytes "Invalid datetime: second must be 00-60") st)
        else if p3 < input.length ∧ input.getD p3 0 = 0x2E then
          -- fractional seconds: `.` followed by at least one digit
          if scanWhile isDigitByte input (p3 + 1) = p3 + 1 then
            (none, set_error
              (strBytes "Invalid datetime: fractional seconds must have at least one digit") st)
          else
            try_parse_datetime_offset_part input st start year month day hour minute second
              (byteSlice input (p3 + 1) (scanWhile isDigitByte input (p3 + 1)))
              (scanWhile isDigitByte input (p3 + 1))
        else
          try_parse_datetime_offset_part input st start year month day hour minute second
            [] p3
  else if p < input.length ∧ ¬ is_value_terminator (input.getD p 0) then
    (none, set_error (strBytes "Invalid date: unexpected character after date") st)
  else (some (.str (byteSlice input start p)), { st with pos := p })

/-- The date branch of `try_parse_datetime` (lines 875–936 of the
source), entered once the `YYYY-MM-DD` shape test has passed. -/
def try_parse_datetime_date_part (input : List Nat) (st : Cursor) (start : Nat) :
    Option TomlValue × Cursor :=
    let (okY, year, p1) := parse_int input start 4 4
    if ¬ okY then (none, st)
    else if input.length ≤ p1 ∨ ¬ input.getD p1 0 = 0x2D then (none, st)
    else
      let (okM, month, p2) := parse_int input (p1 + 1) 2 2
      if ¬ okM ∨ month < 1 ∨ 12 < month then
        (none, set_error (strBytes "Invalid date: month must be 01-12") st)
      else if input.length ≤ p2 ∨ ¬ input.getD p2 0 = 0x2D then (none, st)
      else
        let (okD, day, p3) := parse_int input (p2 + 1) 2 2
        if ¬ okD ∨ day < 1 ∨ 31 < day then
          (none, set_error (strBytes "Invalid date: day must be 01-31") st)
        else if max_day_in_month year month < day then
          (none, set_error (strBytes "Invalid date: day out of range for month") st)
        else if p3 = input.length then (some (.str (byteSlice input start p3)), { st with pos := p3 })
        else if input.getD p3 0 = 0x20 then
          -- a space continues into a time only when followed by HH:MM:SS
          if input.length - p3 < 9 then
            (some (.str (byteSlice input start p3)), { st with pos := p3 })
          else
            let q := p3 + 1
            if ¬ (8 ≤ input.length - q ∧ isDigitByte (input.getD q 0) ∧
                isDigitByte (input.getD (q + 1) 0) ∧ input.getD (q + 2) 0 = 0x3A ∧
                isDigitByte (input.getD (q + 3) 0) ∧ isDigitByte (input.getD (q + 4) 0) ∧
                input.getD (q + 5) 0 = 0x3A ∧ isDigitByte (input.getD (q + 6) 0) ∧
                isDigitByte (input.getD (q + 7) 0)) then
              (some (.str (byteSlice input start p3)), { st with pos := p3 })
            else try_parse_datetime_time_part input st start year month day (p3 + 1)
        else if input.getD p3 0 = 0x54 ∨ input.getD p3 0 = 0x74 then
          try_parse_datetime_time_part input st start year month day (p3 + 1)
        else if p3 < input.length ∧ ¬ is_value_terminator (input.getD p3 0) then
          (none, set_error (strBytes "Invalid date: unexpected character after date") st)
        else (some (.str (byteSlice input start (start + 10))), { st with pos := p3 })

/-- The bare-time branch of `try_parse_datetime` (lines 1002–1036 of
the source), entered once the `HH:MM:SS` shape test has passed. -/
def try_parse_datetime_time_only (input : List Nat) (st : Cursor) (start : Nat) :
    Option TomlValue × Cursor :=
    let (okH, h, p1) := parse_int input start 2 2
    if ¬ okH ∨ 23 < h then
      (none, set_error (strBytes "Invalid time: hour must be 00-23") st)
    else if input.length ≤ p1 ∨ ¬ input.getD p1 0 = 0x3A then (none, st)
    else
      let (okM, m, p2) := parse_int input (p1 + 1) 2 2
      if ¬ okM ∨ 59 < m then
        (none, set_error (strBytes "Invalid time: minute must be 00-59") st)
      else if input.length ≤ p2 ∨ ¬ input.getD p2 0 = 0x3A then (none, st)
      else
        let (okS, s, p3) := parse_int input (p2 + 1) 2 2
        if ¬ okS ∨ 60 < s then
          (none, set_error (strBytes "Invalid time: second must be 00-60") st)
        else
          let p4 := if p3 < input.length ∧ input.getD p3 0 = 0x2E then
              scanWhile isDigitByte input (p3 + 1)
            else p3
          if p4 < input.length ∧ ¬ is_value_terminator (input.getD p4 0) then
            (none, set_error (strBytes "Invalid time: unexpected character after time") st)
          else (some (.str (byteSlice input start p4)), { st with pos := p4 })

/-- `TomlParser::try_parse_datetime`: speculative; `current_` moves only
on the paths that return a value.  The local pointer `p` of the source
is modelled as a plain position, and `st.pos` is written only at the
returning assignments `current_ = p` / `current_ = start`. -/
def try_parse_datetime (input : List Nat) (st : Cursor) : Option TomlValue × Cursor :=
  let start := st.pos
  if 10 ≤ input.length - start ∧
      isDigitByte (input.getD start 0) ∧ isDigitByte (input.getD (start + 1) 0) ∧
      isDigitByte (input.getD (start + 2) 0) ∧ isDigitByte (input.getD (start + 3) 0) ∧
      input.getD (start + 4) 0 = 0x2D ∧ isDigitByte (input.getD (start + 5) 0) ∧
      isDigitByte (input.getD (start + 6) 0) ∧ input.getD (start + 7) 0 = 0x2D ∧
      isDigitByte (input.getD (start + 8) 0) ∧ isDigitByte (input.getD (start + 9) 0) then
    try_parse_datetime_date_part input st start
  else if 8 ≤ input.length - start ∧
      isDigitByte (input.getD start 0) ∧ isDigitByte (input.getD (start + 1) 0) ∧
      input.getD (start + 2) 0 = 0x3A ∧ isDigitByte (input.getD (start + 3) 0) ∧
      isDigitByte (input.getD (start + 4) 0) ∧ input.getD (start + 5) 0 = 0x3A ∧
      isDigitByte (input.getD (start + 6) 0) ∧ isDigitByte (input.getD (start + 7) 0) then
    try_parse_datetime_time_only input st start
  else (none, st)

/-! ## Numbers -/

/-- The `is_hex` lambda: decimal digit or `a`-`f` or `A`-`F`. -/
def is_hex_char (b : Nat) : Bool :=
  isDigitByte b || (0x61 ≤ b && b ≤ 0x66) || (0x41 ≤ b && b ≤ 0x46)

/-- The `is_oct` lambda: `0`-`7`. -/
def is_oct_char (b : Nat) : Bool :=
  0x30 ≤ b && b ≤ 0x37

/-- The `is_bin` lambda: `0` or `1`. -/
def is_bin_char (b : Nat) : Bool :=
  b = 0x30 || b = 0x31

/-- The digit-collecting loop for prefixed integers:
`while (!eof() && (peek() == '_' || <digit of base>))`, appending every
non-underscore byte to `num_clean`.  Returns the collected bytes and the
stop position. -/
def collect_based_digits (input : List Nat) (base : Nat) (pos : Nat) : List Nat × Nat :=
  if _h : pos < input.length ∧
      (input.getD pos 0 = 0x5F ∨
        (base = 16 ∧ is_hex_char (input.getD pos 0)) ∨
        (base = 8 ∧ is_oct_char (input.getD pos 0)) ∨
        (base = 2 ∧ is_bin_char (input.getD pos 0))) then
    let (rest, stop) := collect_based_digits input base (pos + 1)
    (if input.getD pos 0 = 0x5F then (rest, stop) else (input.getD pos 0 :: rest, stop))
  else ([], pos)
termination_by input.length - pos
decreasing_by omega

/-- Value of a byte as a digit in `base` (digits then letters, as
`strtoll` reads them), or `none`. -/
def digitValInBase (base : Nat) (b : Nat) : Option Nat :=
  let v : Option Nat :=
    if isDigitByte b then some (b - 0x30)
    else if 0x41 ≤ b ∧ b ≤ 0x5A then some (b - 0x41 + 10)
    else if 0x61 ≤ b ∧ b ≤ 0x7A then some (b - 0x61 + 10)
    else none
  match v with
  | some v => if v < base then some v else none
  | none => none

/-- The longest prefix of digit values in `base`. -/
def digitsPrefixVals (base : Nat) : List Nat → List Nat
  | [] => []
  | b :: r =>
    match digitValInBase base b with
    | some v => v :: digitsPrefixVals base r
    | none => []

/-- `std::stoll(s, nullptr, base)` as the parser uses it: an optional
sign, then the longest run of digits of `base`; `none` models the
exceptions the parser catches (`invalid_argument` when there is no
digit, `out_of_range` when the value leaves the signed 64-bit range). -/
def cpp_stoll (s : List Nat) (base : Nat) : Option Int :=
  let (neg, rest) :=
    match s with
    | 0x2B :: r => (false, r)
    | 0x2D :: r => (true, r)
    | r => (false, r)
  let ds := digitsPrefixVals base rest
  if ds = [] then none
  else
    let mag : Int := ds.foldl (fun a d => a * (base : Int) + (d : Int)) 0
    let v := if neg then -mag else mag
    if v < -(2 ^ 63) ∨ (2 ^ 63 - 1 : Int) < v then none else some v

/-- Whether `strtod` (hence `std::stod`) accepts some prefix of the
cleaned numeric text: an optional sign followed by a digit, or by a
dot and a digit.  (The cleaned text contains only digits, `.`, `e`,
`E`, `+`, `-`, so the `inf`/`nan` spellings cannot occur.)  When it
accepts, the parser stores the value; the abstract `FloatRepr` keeps
the text itself. -/
def stod_accepts (s : List Nat) : Bool :=
  let body : List Nat → Bool := fun l =>
    match l with
    | [] => false
    | b :: r =>
      isDigitByte b ||
        (b = 0x2E && (match r with | b2 :: _ => isDigitByte b2 | [] => false))
  match s with
  | 0x2B :: r => body r
  | 0x2D :: r => body r
  | r => body r

/-- A byte the decimal/float scanning loop consumes: digit, `.`, `e`,
`E`, `+`, `-`, `_`. -/
def isNumTokenByte (b : Nat) : Bool :=
  isDigitByte b || b = 0x2E || b = 0x65 || b = 0x45 || b = 0x2B || b = 0x2D || b = 0x5F

/-- The decimal/float scanning loop of `parse_value`, tracking
`has_dot`/`has_exp`; the fourth component reports the "Double dot"
early return (at which point the cursor stands on the second dot). -/
def scan_number (input : List Nat) (pos : Nat) (hasDot hasExp : Bool) :
    Nat × Bool × Bool × Bool :=
  if _h : pos < input.length ∧ isNumTokenByte (input.getD pos 0) then
    let b := input.getD pos 0
    if b = 0x2E ∧ hasDot then (pos, hasDot, hasExp, true)
    else scan_number input (pos + 1) (hasDot || b = 0x2E) (hasExp || b = 0x65 || b = 0x45)
  else (pos, hasDot, hasExp, false)
termination_by input.length - pos
decreasing_by omega

/-- `TomlParser::parse_boolean`: `expect_char` chains for `true` /
`false` (selected on the first byte). -/
def parse_boolean (input : List Nat) (st : Cursor) : Bool × Cursor :=
  if peek input st = 0x74 then
    let st := expect_char input 0x74 st
    let st := expect_char input 0x72 st
    let st := expect_char input 0x75 st
    let st := expect_char input 0x65 st
    (true, st)
  else
    let st := expect_char input 0x66 st
    let st := expect_char input 0x61 st
    let st := expect_char input 0x6C st
    let st := expect_char input 0x73 st
    let st := expect_char input 0x65 st
    (false, st)

/-- The `inf` lookahead used by `parse_value`:
`end_ - current_ >= 3 && current_[0..2] == "inf"` and the byte after is
absent or not alphanumeric/underscore (with first letter `l0 l1 l2`). -/
def word3_at (input : List Nat) (pos : Nat) (l0 l1 l2 : Nat) : Bool :=
  3 ≤ input.length - pos ∧ input.getD pos 0 = l0 ∧ input.getD (pos + 1) 0 = l1 ∧
    input.getD (pos + 2) 0 = l2 ∧
    (input.length ≤ pos + 3 ∨
      ¬ (isAlnumByte (input.getD (pos + 3) 0) ∨ input.getD (pos + 3) 0 = 0x5F))

/-- The number tail of `parse_value` (after the datetime triggers):
signed `inf`/`nan`, prefixed `0x`/`0o`/`0b` integers, then the
decimal/float scan.  `start` is the cursor position at `const char*
start = current_;`. -/
def parse_value_number (input : List Nat) (st : Cursor) : TomlValue × Cursor :=
  let start := st.pos
  let c := peek input st
  let signCase : Bool := c = 0x2B ∨ c = 0x2D
  let st1 := if signCase then (advance input st).2 else st
  if signCase ∧ ¬ eof input st1 ∧ peek input st1 = 0x69 ∧
      word3_at input st1.pos 0x69 0x6E 0x66 then
    (.float (if input.getD start 0 = 0x2D then .negInf else .posInf),
      { st1 with pos := st1.pos + 3 })
  else if signCase ∧ ¬ eof input st1 ∧ peek input st1 = 0x6E ∧
      word3_at input st1.pos 0x6E 0x61 0x6E then
    (.float (if input.getD start 0 = 0x2D then .negNan else .posNan),
      { st1 with pos := st1.pos + 3 })
  else
    -- prefixed integer literals: 0x / 0o / 0b
    let prefixedOk : Bool := st1.pos < input.length ∧ input.getD st1.pos 0 = 0x30 ∧
      st1.pos + 2 ≤ input.length
    let n := input.getD (st1.pos + 1) 0
    let base : Nat :=
      if n = 0x78 ∨ n = 0x58 then 16
      else if n = 0x6F ∨ n = 0x4F then 8
      else if n = 0x62 ∨ n = 0x42 then 2
      else 0
    if prefixedOk ∧ ¬ base = 0 then
      let (numClean, stop) := collect_based_digits input base (st1.pos + 2)
      let st2 : Cursor := { st1 with pos := stop }
      if numClean = [] then (.integer 0, set_error (strBytes "Invalid integer literal") st2)
      else
        match cpp_stoll numClean base with
        | some v =>
          let v := if start < input.length ∧ input.getD start 0 = 0x2D then -v else v
          (.integer v, st2)
        | none =>
          (.integer 0, set_error (strBytes "Invalid integer: " ++ byteSlice input start stop) st2)
    else if st1.pos = start ∧ peek input st1 = 0x2E then
      (.float .zero, set_error (strBytes "Leading dot not allowed in number") st1)
    else if st1.pos = start ∧ peek input st1 = 0x30 ∧ st1.pos + 1 < input.length ∧
        isDigitByte (input.getD (st1.pos + 1) 0) then
      (.integer 0, set_error (strBytes "Leading zero not allowed in decimal integer") st1)
    else
      let (stop, hasDot, hasExp, dblDot) := scan_number input st1.pos false false
      if dblDot then
        (.float .zero, set_error (strBytes "Double dot not allowed in float") { st1 with pos := stop })
      else
        let st2 : Cursor := { st1 with pos := stop }
        let numStr := byteSlice input start stop
        if hasDot ∧ ¬ hasExp ∧ ¬ numStr = [] ∧ numStr.getLast? = some 0x2E then
          (.float .zero, set_error (strBytes "Trailing dot not allowed in float") st2)
        else
          let numClean := numStr.filter (fun b => !(b = 0x5F))
          if hasDot ∨ hasExp then
            if stod_accepts numClean then (.float (.fromDecimal numClean), st2)
            else (.float .zero, set_error (strBytes "Invalid float: " ++ numStr) st2)
          else
            match cpp_stoll numClean 10 with
            | some v => (.integer v, st2)
            | none => (.integer 0, set_error (strBytes "Invalid integer: " ++ numStr) st2)

/-- The second datetime trigger of `parse_value` (`HH:` lookahead) and
the fall-through to the number tail. -/
def parse_value_number2 (input : List Nat) (st : Cursor) : TomlValue × Cursor :=
  if isDigitByte (peek input st) ∧ 8 ≤ input.length - st.pos ∧
      isDigitByte (input.getD st.pos 0) ∧ isDigitByte (input.getD (st.pos + 1) 0) ∧
      input.getD (st.pos + 2) 0 = 0x3A then
    match try_parse_datetime input st with
    | (some v, st') => (v, st')
    | (none, st') =>
      if ¬ st'.err = none then (.integer 0, st')
      else parse_value_number input st'
  else parse_value_number input st

/-! ## Structural engine: dotted paths, headers, locations -/

/-- One step of a location inside the root table: descend into the
table bound at `k`, or into the last element (a table) of the array
bound at `k`.  This is the pure counterpart of the `shared_ptr<Table>`
the C++ code keeps into the tree. -/
inductive Step where
  | tbl (k : Key)
  | arrLast (k : Key)
  deriving Repr, DecidableEq

/-- A location: the path of steps from the root to the table a
`shared_ptr<Table>` points at. -/
abbrev Loc := List Step

/-- Read the table a location points at. -/
def navigate (t : Table) : Loc → Option Table
  | [] => some t
  | .tbl k :: rest =>
    match tfind? t k with
    | some (.table u) => navigate u rest
    | _ => none
  | .arrLast k :: rest =>
    match tfind? t k with
    | some (.array es) =>
      match es.getLast? with
      | some (.table u) => navigate u rest
      | _ => none
    | _ => none

/-- Replace the table a location points at (mutation through the
pointer); an invalid location leaves the tree unchanged (unreachable
during a parse). -/
def updateAt (t : Table) (loc : Loc) (newT : Table) : Table :=
  match loc with
  | [] => newT
  | .tbl k :: rest =>
    match tfind? t k with
    | some (.table u) => tset t k (.table (updateAt u rest newT))
    | _ => t
  | .arrLast k :: rest =>
    match tfind? t k with
    | some (.array es) =>
      match es.getLast? with
      | some (.table u) => tset t k (.array (es.dropLast ++ [.table (updateAt u rest newT)]))
      | _ => t
    | _ => t

/-- `TomlParser::set_value_at_path` on a table value: walk the prefix
creating empty tables for absent keys, erroring on any non-table
binding, and set the final key unconditionally.  Mutation through
`shared_ptr`s becomes rebuilding on the way out (intermediate tables
created before a deeper error persist, as in the source). -/
def set_value_at_path (t : Table) (path : List Key) (v : TomlValue) (st : Cursor) :
    Table × Cursor :=
  match path with
  | [] => (t, st)
  | [k] => (tset t k v, st)
  | k :: rest =>
    match tfind? t k with
    | some (.table u) =>
      let (u', st') := set_value_at_path u rest v st
      (tset t k (.table u'), st')
    | some _ =>
      (t, set_error (strBytes "Key '" ++ k ++ strBytes "' already defined as non-table") st)
    | none =>
      let (u', st') := set_value_at_path [] rest v st
      (tset t k (.table u'), st')

/-- The walk of `TomlParser::get_or_create_table_at_path` from a table
`t`, with `donePfx` the prefix of the full path already consumed (for
the array-of-tables membership test on `path_so_far`).  Returns the
location of the reached table (`none` after an error), the updated
tree, and the cursor (error channel). -/
def get_or_create_table_at_path_go (t : Table) (aot : AotPaths) (donePfx : List Key)
    (path : List Key) (st : Cursor) : Option Loc × Table × Cursor :=
  match path with
  | [] => (some [], t, st)
  | k :: rest =>
    match tfind? t k with
    | some (.table u) =>
      let (loc?, u', st') := get_or_create_table_at_path_go u aot (donePfx ++ [k]) rest st
      (loc?.map (fun l => .tbl k :: l), tset t k (.table u'), st')
    | some (.array es) =>
      if ¬ aotMem aot (donePfx ++ [k]) then
        (none, t, set_error (strBytes "Cannot extend static array with table header") st)
      else if es.isEmpty then
        (none, t, set_error (strBytes "Array of tables is empty") st)
      else
        match es.getLast? with
        | some (.table u) =>
          let (loc?, u', st') := get_or_create_table_at_path_go u aot (donePfx ++ [k]) rest st
          (loc?.map (fun l => .arrLast k :: l),
            tset t k (.array (es.dropLast ++ [.table u'])), st')
        | _ =>
          (none, t,
            set_error (strBytes "Key '" ++ k ++ strBytes "' already defined as non-table") st)
    | some _ =>
      (none, t,
        set_error (strBytes "Key '" ++ k ++ strBytes "' already defined as non-table") st)
    | none =>
      let (loc?, u', st') := get_or_create_table_at_path_go [] aot (donePfx ++ [k]) rest st
      (loc?.map (fun l => .tbl k :: l), tset t k (.table u'), st')

/-- `TomlParser::get_or_create_table_at_path` from the root. -/
def get_or_create_table_at_path (root : Table) (aot : AotPaths) (path : List Key)
    (st : Cursor) : Option Loc × Table × Cursor :=
  get_or_create_table_at_path_go root aot [] path st

/-- The walk of `TomlParser::get_or_create_array_append_table`: the
prefix segments descend exactly like the table-header walk (with this
function's error messages); the final segment creates or appends to the
array of tables. -/
def get_or_create_array_append_table_go (t : Table) (aot : AotPaths) (donePfx : List Key)
    (path : List Key) (st : Cursor) : Option Loc × Table × AotPaths × Cursor :=
  match path with
  | [] => (none, t, aot, st)
  | [k] =>
    let full := donePfx ++ [k]
    match tfind? t k with
    | none =>
      (some [.arrLast k], tset t k (.array [.table []]), aotInsert aot full, st)
    | some (.array es) =>
      if ¬ aotMem aot full then
        (none, t, aot, set_error
          (strBytes "Key '" ++ k ++ strBytes "' already defined as non-array-of-tables") st)
      else if es.any (fun e => match e with | .table _ => false | _ => true) then
        (none, t, aot, set_error
          (strBytes "Key '" ++ k ++ strBytes "' already defined as non-array-of-tables") st)
      else
        (some [.arrLast k], tset t k (.array (es ++ [.table []])), aot, st)
    | some _ =>
      (none, t, aot,
        set_error (strBytes "Key '" ++ k ++ strBytes "' already defined as non-array") st)
  | k :: rest =>
    match tfind? t k with
    | some (.table u) =>
      let (loc?, u', aot', st') :=
        get_or_create_array_append_table_go u aot (donePfx ++ [k]) rest st
      (loc?.map (fun l => .tbl k :: l), tset t k (.table u'), aot', st')
    | some (.array es) =>
      if ¬ aotMem aot (donePfx ++ [k]) then
        (none, t, aot,
          set_error (strBytes "Key '" ++ k ++ strBytes "' already defined as non-table") st)
      else if es.isEmpty then
        (none, t, aot, set_error (strBytes "Array of tables is empty") st)
      else
        match es.getLast? with
        | some (.table u) =>
          let (loc?, u', aot', st') :=
            get_or_create_array_append_table_go u aot (donePfx ++ [k]) rest st
          (loc?.map (fun l => .arrLast k :: l),
            tset t k (.array (es.dropLast ++ [.table u'])), aot', st')
        | _ =>
          (none, t, aot, set_error
            (strBytes "Key '" ++ k ++ strBytes "' already defined as non-array-of-tables") st)
    | some _ =>
      (none, t, aot,
        set_error (strBytes "Key '" ++ k ++ strBytes "' already defined as non-table") st)
    | none =>
      let (loc?, u', aot', st') :=
        get_or_create_array_append_table_go [] aot (donePfx ++ [k]) rest st
      (loc?.map (fun l => .tbl k :: l), tset t k (.table u'), aot', st')

/-- `TomlParser::get_or_create_array_append_table` from the root (the
empty-path guard, then the walk). -/
def get_or_create_array_append_table (root : Table) (aot : AotPaths) (path : List Key)
    (st : Cursor) : Option Loc × Table × AotPaths × Cursor :=
  match path with
  | [] => (none, root, aot, set_error (strBytes "Empty array of tables path") st)
  | _ => get_or_create_array_append_table_go root aot [] path st

/-! ## parse_value, arrays, inline tables (mutually recursive, fueled) -/

/-- The inner `for (;;)` of `parse_array`'s loop: skip whitespace; `]`
means "goto end_array_loop" (second component `true`); a comment is
skipped and the scan repeats; anything else starts a value. -/
def parse_array_skip (input : List Nat) (fuel : Nat) (st : Cursor) : Cursor × Bool :=
  match fuel with
  | 0 => (st, false)
  | fuel + 1 =>
    let st1 := skip_whitespace input st
    if peek input st1 = 0x5D then (st1, true)
    else if peek input st1 = 0x23 then parse_array_skip input fuel (skip_comment input st1)
    else (st1, false)

mutual

/-- `TomlParser::parse_value`.  The fuel bounds the loop iteration
count and recursion depth (the C++ loops always make progress, so any
fuel of at least the remaining input length reproduces them); the
datetime triggers, number scanning, strings and booleans do not consume
fuel. -/
def parse_value (input : List Nat) (fuel : Nat) (st0 : Cursor) : TomlValue × Cursor :=
  match fuel with
  | 0 => (.integer 0, st0)
  | fuel + 1 =>
    let st := skip_whitespace_no_nl input st0
    let c := peek input st
    if c = 0x22 then
      if st.pos + 2 < input.length ∧ input.getD (st.pos + 1) 0 = 0x22 ∧
          input.getD (st.pos + 2) 0 = 0x22 then
        let (s, st') := parse_multiline_basic_string input fuel { st with pos := st.pos + 3 }
        (.str s, st')
      else
        let (s, st') := parse_basic_string input fuel st
        (.str s, st')
    else if c = 0x27 then
      if st.pos + 2 < input.length ∧ input.getD (st.pos + 1) 0 = 0x27 ∧
          input.getD (st.pos + 2) 0 = 0x27 then
        let (s, st') := parse_multiline_literal_string input fuel { st with pos := st.pos + 3 }
        (.str s, st')
      else
        let (s, st') := parse_literal_string input fuel st
        (.str s, st')
    else if c = 0x5B then
      let (es, st') := parse_array input fuel st
      (.array es, st')
    else if c = 0x7B then
      let (tb, st') := parse_inline_table input fuel st
      (.table tb, st')
    else if isDigitByte c ∨ c = 0x2B ∨ c = 0x2D ∨ c = 0x2E then
      -- first datetime trigger: YYYY- lookahead
      if isDigitByte c ∧ 10 ≤ input.length - st.pos ∧
          isDigitByte (input.getD st.pos 0) ∧ isDigitByte (input.getD (st.pos + 1) 0) ∧
          isDigitByte (input.getD (st.pos + 2) 0) ∧ isDigitByte (input.getD (st.pos + 3) 0) ∧
          input.getD (st.pos + 4) 0 = 0x2D then
        match try_parse_datetime input st with
        | (some v, st') => (v, st')
        | (none, st') =>
          if ¬ st'.err = none then (.integer 0, st')
          else parse_value_number2 input st'
      else parse_value_number2 input st
    else if c = 0x74 ∨ c = 0x66 then
      let (b, st') := parse_boolean input st
      (.boolean b, st')
    else if c = 0x69 ∧ word3_at input st.pos 0x69 0x6E 0x66 then
      (.float .posInf, { st with pos := st.pos + 3 })
    else if c = 0x6E ∧ word3_at input st.pos 0x6E 0x61 0x6E then
      (.float .posNan, { st with pos := st.pos + 3 })
    else
      (.integer 0, set_error (strBytes "Unexpected character in value: " ++ [c]) st)

/-- The `while (!eof())` loop of `parse_array`. -/
def parse_array_go (input : List Nat) (fuel : Nat) (acc : List TomlValue) (st : Cursor) :
    List TomlValue × Cursor :=
  match fuel with
  | 0 => (acc, st)
  | fuel + 1 =>
    if eof input st then (acc, st)
    else
      match parse_array_skip input fuel st with
      | (st1, true) => (acc, st1)
      | (st1, false) =>
        let (v, st2) := parse_value input fuel st1
        let acc := acc ++ [v]
        let st3 := skip_whitespace input (skip_comment input (skip_whitespace input st2))
        if peek input st3 = 0x2C then
          let st4 := skip_comment input (skip_whitespace input (advance input st3).2)
          parse_array_go input fuel acc st4
        else if ¬ peek input st3 = 0x5D then
          (acc, set_error (strBytes "Expected ',' or ']' in array") st3)
        else parse_array_go input fuel acc st3

/-- `TomlParser::parse_array`. -/
def parse_array (input : List Nat) (fuel : Nat) (st : Cursor) : List TomlValue × Cursor :=
  match fuel with
  | 0 => ([], st)
  | fuel + 1 =>
    let st1 := skip_comment input (skip_whitespace input (expect_char input 0x5B st))
    if peek input st1 = 0x5D then ([], (advance input st1).2)
    else
      let (es, st2) := parse_array_go input fuel [] st1
      (es, expect_char input 0x5D st2)

/-- The `while (!eof())` loop of `parse_inline_table`. -/
def parse_inline_table_go (input : List Nat) (fuel : Nat) (acc : Table) (st : Cursor) :
    Table × Cursor :=
  match fuel with
  | 0 => (acc, st)
  | fuel + 1 =>
    if eof input st then (acc, st)
    else
      let (path, st1) := parse_dotted_key input fuel st
      if path.isEmpty then (acc, st1)
      else
        let st2 := skip_whitespace_no_nl input st1
        let st3 := expect_char input 0x3D st2
        let st4 := skip_whitespace_no_nl input st3
        let (v, st5) := parse_value input fuel st4
        let (acc', st6) := set_value_at_path acc path v st5
        let st7 := skip_whitespace_no_nl input st6
        if peek input st7 = 0x7D then (acc', st7)
        else
          let st8 := skip_whitespace_no_nl input (expect_char input 0x2C st7)
          parse_inline_table_go input fuel acc' st8

/-- `TomlParser::parse_inline_table`. -/
def parse_inline_table (input : List Nat) (fuel : Nat) (st : Cursor) : Table × Cursor :=
  match fuel with
  | 0 => ([], st)
  | fuel + 1 =>
    let st1 := skip_whitespace_no_nl input (expect_char input 0x7B st)
    if peek input st1 = 0x7D then ([], (advance input st1).2)
    else
      let (tb, st2) := parse_inline_table_go input fuel [] st1
      (tb, expect_char input 0x7D st2)

end

/-! ## Document driver and parse -/

/-- The full parser state: cursor/error, the root table, the location
`current_table_` points at, and the array-of-tables path set. -/
structure PState where
  cur : Cursor
  root : Table
  curTab : Loc
  aot : AotPaths
  deriving Repr

/-- `TomlParser::parse_key_value_pair` into the current table: parse a
dotted key, `=`, a value, trailing spaces and comment, then
`set_value_at_path` through the `current_table_` pointer (here: update
the root at the current location). -/
def parse_key_value_pair (input : List Nat) (fuel : Nat) (ps : PState) : PState :=
  let (path, c1) := parse_dotted_key input fuel ps.cur
  if path.isEmpty then { ps with cur := c1 }
  else
    let c2 := skip_whitespace_no_nl input c1
    let c3 := expect_char input 0x3D c2
    let c4 := skip_whitespace_no_nl input c3
    let (v, c5) := parse_value input fuel c4
    let c6 := skip_comment input (skip_whitespace_no_nl input c5)
    match navigate ps.root ps.curTab with
    | some t =>
      let (t', c7) := set_value_at_path t path v c6
      { ps with cur := c7, root := updateAt ps.root ps.curTab t' }
    | none => { ps with cur := c6 }

/-- The `while (!eof())` loop of `TomlParser::parse_document`. -/
def parse_document_go (input : List Nat) (fuel : Nat) (ps : PState) : PState :=
  match fuel with
  | 0 => ps
  | fuel + 1 =>
    if eof input ps.cur then ps
    else
      let c1 := skip_whitespace input ps.cur
      if eof input c1 then { ps with cur := c1 }
      else if peek input c1 = 0x23 then
        parse_document_go input fuel { ps with cur := skip_comment input c1 }
      else if peek input c1 = 0x5B then
        let c2 := skip_whitespace input (advance input c1).2
        let (isAot, c3) :=
          if peek input c2 = 0x5B then (true, skip_whitespace input (advance input c2).2)
          else (false, c2)
        let (path, c4) := parse_dotted_key input fuel c3
        if path.isEmpty then { ps with cur := set_error (strBytes "Empty table header") c4 }
        else
          let c5 := skip_whitespace input c4
          let c6 :=
            if isAot then expect_char input 0x5D (expect_char input 0x5D c5)
            else expect_char input 0x5D c5
          let c7 := skip_comment input (skip_whitespace input c6)
          if isAot then
            match get_or_create_array_append_table ps.root ps.aot path c7 with
            | (none, root', aot', c8) => { ps with cur := c8, root := root', aot := aot' }
            | (some loc, root', aot', c8) =>
              parse_document_go input fuel { cur := c8, root := root', curTab := loc, aot := aot' }
          else
            match get_or_create_table_at_path ps.root ps.aot path c7 with
            | (none, root', c8) => { ps with cur := c8, root := root' }
            | (some loc, root', c8) =>
              parse_document_go input fuel { ps with cur := c8, root := root', curTab := loc }
      else
        let ps1 := parse_key_value_pair input fuel { ps with cur := c1 }
        let c2 := skip_whitespace input ps1.cur
        let c3 :=
          if ¬ eof input c2 ∧ ¬ peek input c2 = 0x23 ∧ ¬ peek input c2 = 0x5B then
            skip_whitespace input c2
          else c2
        parse_document_go input fuel { ps1 with cur := c3 }

/-- `TomlParser::parse_document`: skip leading whitespace, then loop. -/
def parse_document (input : List Nat) (fuel : Nat) (ps : PState) : PState :=
  parse_document_go input fuel { ps with cur := skip_whitespace input ps.cur }

/-- `is_forbidden_control`: bytes 0x00–0x1F except tab and LF (CR is
checked separately, against CRLF pairing), plus 0x7F. -/
def is_forbidden_control (b : Nat) : Bool :=
  if b = 0x09 ∨ b = 0x0A then false
  else if b = 0x0D then false
  else if b ≤ 0x1F ∨ b = 0x7F then true
  else false

/-- The pre-validation scan in `TomlParser::parse`: `true` iff some
position holds a CR not immediately followed by LF, or a forbidden
control byte. -/
def prevalidate_fails (input : List Nat) (i : Nat) : Bool :=
  if _h : i < input.length then
    if input.getD i 0 = 0x0D then
      if input.length ≤ i + 1 ∨ ¬ input.getD (i + 1) 0 = 0x0A then true
      else prevalidate_fails input (i + 1)
    else if is_forbidden_control (input.getD i 0) then true
    else prevalidate_fails input (i + 1)
  else false
termination_by input.length - i
decreasing_by all_goals omega

/-- The control-character error message of `TomlParser::parse`. -/
def control_char_message : List Nat :=
  strBytes
    "Control characters (U+0000-U+001F except tab/LF/CR in CRLF) and U+007F are not permitted"

/-- `TomlParser::parse`: clear the error and the array-of-tables set,
pre-validate (returning a null result on a forbidden control byte
before any document parsing), then run the document driver from a
fresh root; a recorded error yields a null result. -/
def parse (input : List Nat) (fuel : Nat) : Option Table × Cursor :=
  let st0 : Cursor := { pos := 0, err := none }
  if prevalidate_fails input 0 then (none, set_error control_char_message st0)
  else
    let ps := parse_document input fuel { cur := st0, root := [], curTab := [], aot := [] }
    if ¬ ps.cur.err = none then (none, ps.cur)
    else (some ps.root, ps.cur)

/-! ## Statement helpers

Definitions used to state the verified properties (declarative
characterizations of what the code computes, not translations of
source functions). -/

/-- Length of the leading run of bytes satisfying `p` — the canonical
meaning of all the scanning loops. -/
def leadCount (p : Nat → Bool) (l : List Nat) : Nat :=
  (l.takeWhile p).length

/-- The value of a big-endian string of hex digits. -/
def hexVal (hs : List Nat) : Nat :=
  hs.foldl (fun a b => a * 16 + (hex_digit b).toNat) 0

/-- A byte the pre-validation scan must reject at position `j`, exactly
as the claim describes it: a byte in `[0x00, 0x1F]` other than tab,
LF, or a CR immediately followed by LF; or the byte `0x7F`. -/
def forbiddenAt (input : List Nat) (j : Nat) : Prop :=
  (input.getD j 0 ≤ 0x1F ∧ ¬ input.getD j 0 = 0x09 ∧ ¬ input.getD j 0 = 0x0A ∧
    ¬ (input.getD j 0 = 0x0D ∧ j + 1 < input.length ∧ input.getD (j + 1) 0 = 0x0A)) ∨
  input.getD j 0 = 0x7F

/-- What the array-of-tables walk finds for a path: the prefix walk
fails; or the final key is absent in the parent table it reaches; or it
is bound to an array with the given elements; or to some other value.
This is a read-only rendering of the walk in
`get_or_create_array_append_table`. -/
inductive AotProbe where
  | walkFail
  | absent
  | arrayElems (es : List TomlValue)
  | otherValue
  deriving Repr

/-- The read-only walk (mirroring the traversal of
`get_or_create_array_append_table_go`, including the membership and
last-element conditions on array prefixes). -/
def probe_aot (t : Table) (aot : AotPaths) (donePfx : List Key) : List Key → AotProbe
  | [] => .walkFail
  | [k] =>
    match tfind? t k with
    | none => .absent
    | some (.array es) => .arrayElems es
    | some _ => .otherValue
  | k :: rest =>
    match tfind? t k with
    | some (.table u) => probe_aot u aot (donePfx ++ [k]) rest
    | some (.array es) =>
      if ¬ aotMem aot (donePfx ++ [k]) then .walkFail
      else if es.isEmpty then .walkFail
      else
        match es.getLast? with
        | some (.table u) => probe_aot u aot (donePfx ++ [k]) rest
        | _ => .walkFail
    | some _ => .walkFail
    | none => probe_aot [] aot (donePfx ++ [k]) rest

/-- Whether a value is a table. -/
def isTableVal : TomlValue → Bool
  | .table _ => true
  | _ => false

/-- `n` successive `[[path]]` headers: iterate
`get_or_create_array_append_table` on the root/set/error state. -/
def aot_header_iter (path : List Key) : Nat → Table × AotPaths × Cursor →
    Table × AotPaths × Cursor
  | 0, s => s
  | n + 1, (root, aot, st) =>
    let (_, root', aot', st') := get_or_create_array_append_table root aot path st
    aot_header_iter path n (root', aot', st')

/-! ## Verified properties -/

theorem scanWhile_eq (p : Nat → Bool) (input : List Nat) (pos : Nat) :
    scanWhile p input pos = pos + leadCount p (input.drop pos) := by
  induction pos using scanWhile.induct p input with
  | case1 pos h ih =>
    have hd : input.drop pos = input[pos] :: input.drop (pos+1) :=
      List.drop_eq_getElem_cons h.1
    have hp : p input[pos] = true := by
      have := h.2
      rwa [List.getD_eq_getElem input 0 h.1] at this
    rw [scanWhile, dif_pos h, ih, hd]
    simp only [leadCount, List.takeWhile_cons, hp, if_true, List.length_cons]
    omega
  | case2 pos h =>
    rw [scanWhile, dif_neg h]
    rcases Decidable.em (pos < input.length) with hlt | hge
    · have hnp : ¬ p (input.getD pos 0) = true := by tauto
      have hd : input.drop pos = input[pos] :: input.drop (pos+1) :=
        List.drop_eq_getElem_cons hlt
      rw [List.getD_eq_getElem input 0 hlt] at hnp
      rw [hd]
      simp [leadCount, List.takeWhile_cons, hnp]
    · have hnil : input.drop pos = [] := List.drop_eq_nil_of_le (by omega)
      simp [hnil, leadCount]

theorem leadCount_append_all (p : Nat → Bool) (l₁ l₂ : List Nat)
    (h : ∀ b ∈ l₁, p b = true) :
    leadCount p (l₁ ++ l₂) = l₁.length + leadCount p l₂ := by
  induction l₁ with
  | nil => simp [leadCount]
  | cons a l ih =>
    have ha : p a = true := h a (by simp)
    simp only [List.cons_append, leadCount, List.takeWhile_cons, ha, if_true, List.length_cons]
    have := ih (fun b hb => h b (by simp [hb]))
    simp only [leadCount] at this
    omega

theorem leadCount_append_stop (p : Nat → Bool) (l₁ l₂ : List Nat)
    (h : ∃ b ∈ l₁, p b = false) :
    leadCount p (l₁ ++ l₂) = leadCount p l₁ := by
  induction l₁ with
  | nil => simp at h
  | cons a l ih =>
    by_cases ha : p a = true
    · simp only [List.cons_append, leadCount, List.takeWhile_cons, ha, if_true, List.length_cons]
      rcases h with ⟨b, hb, hpb⟩
      rcases List.mem_cons.mp hb with rfl | hbl
      · rw [ha] at hpb; cases hpb
      · have := ih ⟨b, hbl, hpb⟩
        simp only [leadCount] at this
        omega
    · have ha' : p a = false := by revert ha; cases p a <;> simp
      simp [leadCount, List.takeWhile_cons, ha']

theorem movemask_lt (p : Nat → Bool) (l : List Nat) : movemask p l < 2 ^ l.length := by
  induction l with
  | nil => simp [movemask]
  | cons a l ih =>
    simp only [movemask, List.length_cons, pow_succ]
    cases p a <;> simp <;> omega

theorem movemask_add_not (p : Nat → Bool) (l : List Nat) :
    movemask p l + movemask (fun b => !p b) l = 2 ^ l.length - 1 := by
  induction l with
  | nil => simp [movemask]
  | cons a l ih =>
    have hlt := movemask_lt p l
    simp only [movemask, List.length_cons, pow_succ]
    cases p a <;> simp <;> omega

theorem movemask_allOnes_iff (p : Nat → Bool) (l : List Nat) :
    movemask p l = 2 ^ l.length - 1 ↔ ∀ b ∈ l, p b = true := by
  induction l with
  | nil => simp [movemask]
  | cons a l ih =>
    have hlt := movemask_lt p l
    have h1 : 1 ≤ 2 ^ l.length := Nat.one_le_two_pow
    simp only [movemask, List.length_cons, pow_succ, List.mem_cons]
    cases hpa : p a with
    | true =>
      simp only [cond_true]
      constructor
      · intro h b hb
        rcases hb with rfl | hb
        · exact hpa
        · exact ih.mp (by omega) b hb
      · intro h
        have := ih.mpr (fun b hb => h b (Or.inr hb))
        omega
    | false =>
      simp only [cond_false]
      constructor
      · intro h; exfalso; omega
      · intro h
        have := h a (Or.inl rfl)
        rw [hpa] at this; cases this

theorem movemask_zero_iff (p : Nat → Bool) (l : List Nat) :
    movemask p l = 0 ↔ ∀ b ∈ l, p b = false := by
  induction l with
  | nil => simp [movemask]
  | cons a l ih =>
    simp only [movemask, List.mem_cons]
    cases hpa : p a with
    | true =>
      simp only [cond_true]
      constructor
      · intro h; omega
      · intro h
        have := h a (Or.inl rfl)
        rw [hpa] at this; cases this
    | false =>
      simp only [cond_false]
      constructor
      · intro h b hb
        rcases hb with rfl | hb
        · exact hpa
        · exact ih.mp (by omega) b hb
      · intro h
        have := ih.mpr (fun b hb => h b (Or.inr hb))
        omega

theorem ctzRec_movemask (p : Nat → Bool) (l : List Nat)
    (h : ∃ b ∈ l, p b = true) :
    ctzRec l.length (movemask p l) = leadCount (fun b => !p b) l := by
  induction l with
  | nil => simp at h
  | cons a l ih =>
    cases hpa : p a with
    | true =>
      simp only [movemask, hpa, List.length_cons, ctzRec, leadCount, List.takeWhile_cons]
      simp
    | false =>
      have hrest : ∃ b ∈ l, p b = true := by
        rcases h with ⟨b, hb, hpb⟩
        rcases List.mem_cons.mp hb with rfl | hbl
        · rw [hpa] at hpb; cases hpb
        · exact ⟨b, hbl, hpb⟩
      simp only [movemask, hpa, List.length_cons, ctzRec, leadCount, List.takeWhile_cons,
        cond_false, Nat.zero_add]
      rw [if_neg (by omega)]
      have h2 : 2 * movemask p l / 2 = movemask p l := by omega
      rw [h2, ih hrest]
      simp only [leadCount, hpa, Bool.not_false, if_true, List.length_cons]
      omega

theorem chunk_length (input : List Nat) (pos : Nat) (h : 32 ≤ input.length - pos) :
    ((input.drop pos).take 32).length = 32 := by
  simp [List.length_take, List.length_drop]
  omega

theorem drop_eq_chunk_append (input : List Nat) (pos : Nat) :
    input.drop pos = (input.drop pos).take 32 ++ input.drop (pos + 32) := by
  have h1 : input.drop (pos + 32) = (input.drop pos).drop 32 := by
    rw [List.drop_drop]
  rw [h1, List.take_append_drop]

theorem avx2Scan_eq_scanWhile (p : Nat → Bool) (input : List Nat) (pos : Nat) :
    avx2Scan p input pos = scanWhile p input pos := by
  induction pos using avx2Scan.induct p input with
  | case1 pos h chunk mask hmask ih =>
    have hlen := chunk_length input pos h
    have hmask' : movemask p ((input.drop pos).take 32) = 2 ^ 32 - 1 := by
      have h32 : (2:Nat) ^ 32 - 1 = 4294967295 := by norm_num
      rw [h32]
      exact hmask
    have hall : ∀ b ∈ (input.drop pos).take 32, p b = true := by
      have hiff := movemask_allOnes_iff p ((input.drop pos).take 32)
      rw [hlen] at hiff
      exact hiff.mp hmask'
    rw [avx2Scan, dif_pos h,
      if_pos (show movemask p (List.take 32 (List.drop pos input)) = 4294967295 from hmask)]
    rw [ih, scanWhile_eq, scanWhile_eq]
    rw [drop_eq_chunk_append input pos, leadCount_append_all p _ _ hall, hlen]
    omega
  | case2 pos h chunk mask hmask =>
    have hlen := chunk_length input pos h
    have hmask' : ¬ movemask p ((input.drop pos).take 32) = 2 ^ 32 - 1 := by
      have h32 : (2:Nat) ^ 32 - 1 = 4294967295 := by norm_num
      rw [h32]
      exact hmask
    have hex : ∃ b ∈ (input.drop pos).take 32, p b = false := by
      by_contra hc
      push_neg at hc
      apply hmask'
      have hall : ∀ b ∈ (input.drop pos).take 32, p b = true := by
        intro b hb
        have hb' := hc b hb
        revert hb'
        cases p b <;> simp
      have hres := (movemask_allOnes_iff p ((input.drop pos).take 32)).mpr hall
      rw [hlen] at hres
      exact hres
    have hsub : (4294967295 : Nat) - movemask p ((input.drop pos).take 32) =
        movemask (fun b => !p b) ((input.drop pos).take 32) := by
      have hadd := movemask_add_not p ((input.drop pos).take 32)
      rw [hlen] at hadd
      have h32 : (2:Nat) ^ 32 - 1 = 4294967295 := by norm_num
      rw [h32] at hadd
      omega
    have hexn : ∃ b ∈ (input.drop pos).take 32, (!p b) = true := by
      rcases hex with ⟨b, hb, hpb⟩
      exact ⟨b, hb, by simp [hpb]⟩
    have hctz := ctzRec_movemask (fun b => !p b) ((input.drop pos).take 32) hexn
    rw [hlen] at hctz
    have hnn : leadCount (fun b => !(!p b)) ((input.drop pos).take 32) =
        leadCount p ((input.drop pos).take 32) := by
      simp [leadCount]
    rw [avx2Scan, dif_pos h,
      if_neg (show ¬ movemask p (List.take 32 (List.drop pos input)) = 4294967295 from hmask)]
    conv_rhs => rw [scanWhile_eq, drop_eq_chunk_append input pos,
      leadCount_append_stop p _ _ hex]
    rw [hsub, hctz, hnn]
  | case3 pos h =>
    rw [avx2Scan, dif_neg h]

theorem find_char_avx2_eq_scalar (input : List Nat) (pos : Nat) (c : Nat) :
    find_char_avx2 input pos c = scanWhile (fun b => !(b = c)) input pos := by
  induction pos, c using find_char_avx2.induct input with
  | case1 pos c h mask hmask0 ih =>
    have hlen := chunk_length input pos h
    have hall0 : ∀ b ∈ (input.drop pos).take 32, (fun b => decide (b = c)) b = false :=
      (movemask_zero_iff _ ((input.drop pos).take 32)).mp hmask0
    have hall : ∀ b ∈ (input.drop pos).take 32, (fun b => !(b = c)) b = true := by
      intro b hb
      have := hall0 b hb
      simp at this
      simp [this]
    rw [find_char_avx2, dif_pos h,
      if_pos (show movemask (fun b => decide (b = c)) (List.take 32 (List.drop pos input)) = 0
        from hmask0)]
    rw [ih, scanWhile_eq, scanWhile_eq]
    rw [drop_eq_chunk_append input pos, leadCount_append_all _ _ _ hall, hlen]
    omega
  | case2 pos c h mask hmask =>
    have hlen := chunk_length input pos h
    have hexq : ∃ b ∈ (input.drop pos).take 32, (fun b => decide (b = c)) b = true := by
      by_contra hc
      push_neg at hc
      apply hmask
      apply (movemask_zero_iff _ ((input.drop pos).take 32)).mpr
      intro b hb
      have := hc b hb
      revert this
      cases (fun b => decide (b = c)) b <;> simp
    have hctz := ctzRec_movemask (fun b => decide (b = c)) ((input.drop pos).take 32) hexq
    rw [hlen] at hctz
    have hex : ∃ b ∈ (input.drop pos).take 32, (fun b => !(b = c)) b = false := by
      rcases hexq with ⟨b, hb, hpb⟩
      exact ⟨b, hb, by simp_all⟩
    rw [find_char_avx2, dif_pos h,
      if_neg (show ¬ movemask (fun b => decide (b = c)) (List.take 32 (List.drop pos input)) = 0
        from hmask)]
    conv_rhs => rw [scanWhile_eq, drop_eq_chunk_append input pos,
      leadCount_append_stop _ _ _ hex]
    rw [hctz]
  | case3 pos c h =>
    rw [find_char_avx2, dif_neg h]

/-- C3: the AVX2 fast-path versions of `skip_whitespace`,
`skip_whitespace_no_nl` and `find_char_simd` return exactly the same
pointer as the scalar fallback loops, namely the first position whose
byte is not in the whitespace class (respectively the first position
equal to the target character), or the end if there is none (the
scalar loops compute `pos` plus the length of the leading run of
class bytes). -/
theorem simd_fast_paths_match_scalar :
    (∀ input pos, skip_whitespace_avx2 input pos = skip_whitespace_scalar input pos) ∧
    (∀ input pos, skip_whitespace_no_nl_avx2 input pos = skip_whitespace_no_nl_scalar input pos) ∧
    (∀ input pos c, find_char_avx2 input pos c = find_char_scalar input pos c) ∧
    (∀ input pos, skip_whitespace_scalar input pos = pos + leadCount isWsByte (input.drop pos)) ∧
    (∀ input pos, skip_whitespace_no_nl_scalar input pos =
      pos + leadCount isWsNoNlByte (input.drop pos)) ∧
    (∀ input pos c, find_char_scalar input pos c =
      pos + leadCount (fun b => !(b = c)) (input.drop pos)) := by
  refine ⟨?_, ?_, ?_, ?_, ?_, ?_⟩
  · intro input pos
    exact avx2Scan_eq_scanWhile isWsByte input pos
  · intro input pos
    exact avx2Scan_eq_scanWhile isWsNoNlByte input pos
  · intro input pos c
    exact find_char_avx2_eq_scalar input pos c
  · intro input pos
    exact scanWhile_eq isWsByte input pos
  · intro input pos
    exact scanWhile_eq isWsNoNlByte input pos
  · intro input pos c
    exact scanWhile_eq (fun b => !(b = c)) input pos


theorem set_error_foldl_ne (msgs : List (List Nat)) (st : Cursor) (h : ¬ st.err = none) :
    (msgs.foldl (fun s m => set_error m s) st).err = st.err := by
  induction msgs generalizing st with
  | nil => rfl
  | cons m rest ih =>
    have hse : set_error m st = st := by
      unfold set_error
      rw [if_neg h]
    simp only [List.foldl_cons, hse]
    exact ih st h

/-- C10: `peek` and `advance` are total and never move the cursor past
the end of the buffer: whenever `current_ ≥ end_` both return the NUL
byte and `advance` leaves the cursor unchanged, so `pos ≤ input.length`
is preserved by `advance` (and `advance` moves by at most one byte,
never reading beyond the end). -/
theorem peek_advance_never_pass_end (input : List Nat) (st : Cursor) :
    (eof input st = true → peek input st = 0 ∧ advance input st = (0, st)) ∧
    (st.pos ≤ input.length → (advance input st).2.pos ≤ input.length) ∧
    st.pos ≤ (advance input st).2.pos ∧ (advance input st).2.pos ≤ st.pos + 1 := by
  by_cases h : input.length ≤ st.pos
  · refine ⟨fun _ => ?_, fun hle => ?_, ?_, ?_⟩ <;>
      simp [peek, advance, eof, h] <;> omega
  · have heof : eof input st = false := by
      simp [eof]
      omega
    refine ⟨fun hc => ?_, fun hle => ?_, ?_, ?_⟩
    · rw [heof] at hc; cases hc
    · simp [advance, eof, h]
      omega
    · simp [advance, eof, h]
    · simp [advance, eof, h]

theorem peek_advance_never_pass_end_witness :
    eof [65] { pos := 1, err := none } = true ∧
    peek [65] { pos := 1, err := none } = 0 ∧
    advance [65] { pos := 1, err := none } = (0, { pos := 1, err := none }) ∧
    (1 ≤ ([65] : List Nat).length →
      (advance [65] { pos := 1, err := none }).2.pos ≤ ([65] : List Nat).length) := by
  have h1 := (peek_advance_never_pass_end [65] { pos := 1, err := none }).1 (by rfl)
  have h2 := (peek_advance_never_pass_end [65] { pos := 1, err := none }).2.1
  exact ⟨by rfl, h1.1, h1.2, h2⟩

/-- C6: `set_error msg` records `msg` iff no error is already recorded;
once `error_message_` is non-empty no later `set_error` changes it, so
after any sequence of `set_error` calls starting from a clean state the
recorded error is the first one. -/
theorem set_error_sticky_first_error :
    (∀ (st : Cursor) (msg : List Nat), st.err = none →
      set_error msg st = { st with err := some msg }) ∧
    (∀ (st : Cursor) (msg : List Nat), ¬ st.err = none → set_error msg st = st) ∧
    (∀ (msgs : List (List Nat)) (st : Cursor) (m0 : List Nat), st.err = none →
      ((m0 :: msgs).foldl (fun s m => set_error m s) st).err = some m0) := by
  refine ⟨?_, ?_, ?_⟩
  · intro st msg h
    unfold set_error
    rw [if_pos h]
  · intro st msg h
    unfold set_error
    rw [if_neg h]
  · intro msgs st m0 h
    have h1 : set_error m0 st = { st with err := some m0 } := by
      unfold set_error
      rw [if_pos h]
    simp only [List.foldl_cons, h1]
    rw [set_error_foldl_ne]
    simp

theorem set_error_sticky_first_error_witness :
    ({ pos := 0, err := none } : Cursor).err = none ∧
    (([[97], [98]] : List (List Nat)).foldl (fun s m => set_error m s)
      { pos := 0, err := none }).err = some [97] := by
  exact ⟨rfl, set_error_sticky_first_error.2.2 [[98]] { pos := 0, err := none } [97] rfl⟩


theorem is_forbidden_control_iff (b : Nat) :
    is_forbidden_control b = true ↔
      (¬ b = 0x09 ∧ ¬ b = 0x0A ∧ ¬ b = 0x0D ∧ (b ≤ 0x1F ∨ b = 0x7F)) := by
  constructor
  · intro h
    unfold is_forbidden_control at h
    split_ifs at h with h1 h2 h3
    exact ⟨fun hx => h1 (Or.inl hx), fun hx => h1 (Or.inr hx), h2, h3⟩
  · rintro ⟨h9, hA, hD, hor⟩
    unfold is_forbidden_control
    rw [if_neg (by tauto), if_neg hD, if_pos hor]

theorem prevalidate_fails_iff (input : List Nat) (i : Nat) :
    prevalidate_fails input i = true ↔
      ∃ j, i ≤ j ∧ j < input.length ∧ forbiddenAt input j := by
  induction i using prevalidate_fails.induct input with
  | case1 i hi hcr hbad =>
    have hcr' : input.getD i 0 = 13 := hcr
    rw [prevalidate_fails, dif_pos hi, if_pos hcr', if_pos hbad]
    refine iff_of_true rfl ⟨i, le_refl i, hi, ?_⟩
    unfold forbiddenAt
    left
    refine ⟨?_, ?_, ?_, ?_⟩
    · omega
    · omega
    · omega
    · rintro ⟨-, hlt, hnext⟩
      rcases hbad with hb | hb
      · omega
      · exact hb hnext
  | case2 i hi hcr hnotbad ih =>
    have hcr' : input.getD i 0 = 13 := hcr
    rw [prevalidate_fails, dif_pos hi, if_pos hcr', if_neg hnotbad, ih]
    push_neg at hnotbad
    constructor
    · rintro ⟨j, hij, hjl, hf⟩
      exact ⟨j, by omega, hjl, hf⟩
    · rintro ⟨j, hij, hjl, hf⟩
      rcases Nat.lt_or_ge i j with hlt | hge
      · exact ⟨j, by omega, hjl, hf⟩
      · have hji : j = i := by omega
        subst hji
        exfalso
        unfold forbiddenAt at hf
        rcases hf with ⟨-, -, -, hno⟩ | h7f
        · exact hno ⟨hcr', by omega, hnotbad.2⟩
        · omega
  | case3 i hi hcr hforb =>
    have hcr' : ¬ input.getD i 0 = 13 := hcr
    rw [prevalidate_fails, dif_pos hi, if_neg hcr', if_pos hforb]
    have hf := (is_forbidden_control_iff (input.getD i 0)).mp hforb
    refine iff_of_true rfl ⟨i, le_refl i, hi, ?_⟩
    unfold forbiddenAt
    rcases hf.2.2.2 with hle | h7f
    · left
      exact ⟨hle, hf.1, hf.2.1, fun hc => hf.2.2.1 hc.1⟩
    · right
      exact h7f
  | case4 i hi hcr hnotforb ih =>
    have hcr' : ¬ input.getD i 0 = 13 := hcr
    rw [prevalidate_fails, dif_pos hi, if_neg hcr', if_neg hnotforb, ih]
    constructor
    · rintro ⟨j, hij, hjl, hf⟩
      exact ⟨j, by omega, hjl, hf⟩
    · rintro ⟨j, hij, hjl, hf⟩
      rcases Nat.lt_or_ge i j with hlt | hge
      · exact ⟨j, by omega, hjl, hf⟩
      · have hji : j = i := by omega
        rw [hji] at hf
        exfalso
        apply hnotforb
        apply (is_forbidden_control_iff (input.getD i 0)).mpr
        unfold forbiddenAt at hf
        rcases hf with ⟨hle, h9, hA, -⟩ | h7f
        · exact ⟨h9, hA, hcr', Or.inl hle⟩
        · refine ⟨?_, ?_, ?_, Or.inr h7f⟩ <;> omega
  | case5 i hi =>
    rw [prevalidate_fails, dif_neg hi]
    refine iff_of_false (by simp) ?_
    rintro ⟨j, hij, hjl, -⟩
    omega

/-- C2: for every input containing a forbidden byte — a byte in
[0x00, 0x1F] other than tab, LF, or a CR immediately followed by LF,
or the byte 0x7F — `parse` records the control-character error and
returns a null result whatever the fuel, i.e. before any document
parsing; an input with no such byte passes pre-validation. -/
theorem parse_rejects_forbidden_control_bytes :
    (∀ (input : List Nat) (fuel : Nat),
      (∃ j, j < input.length ∧ forbiddenAt input j) →
      parse input fuel = (none, { pos := 0, err := some control_char_message })) ∧
    (∀ input : List Nat,
      (∀ j, j < input.length → ¬ forbiddenAt input j) →
      prevalidate_fails input 0 = false) := by
  constructor
  · intro input fuel hex
    have hpre : prevalidate_fails input 0 = true := by
      rw [prevalidate_fails_iff]
      rcases hex with ⟨j, hjl, hf⟩
      exact ⟨j, Nat.zero_le j, hjl, hf⟩
    unfold parse
    rw [if_pos hpre]
    rfl
  · intro input hall
    by_contra hc
    have htrue : prevalidate_fails input 0 = true := by
      revert hc
      cases prevalidate_fails input 0 <;> simp
    rcases (prevalidate_fails_iff input 0).mp htrue with ⟨j, -, hjl, hf⟩
    exact hall j hjl hf

theorem parse_rejects_forbidden_control_bytes_witness :
    (∃ j, j < ([0x61, 0x00] : List Nat).length ∧ forbiddenAt [0x61, 0x00] j) ∧
    parse [0x61, 0x00] 7 = (none, { pos := 0, err := some control_char_message }) ∧
    (∀ j, j < ([0x61, 0x3D, 0x31] : List Nat).length → ¬ forbiddenAt [0x61, 0x3D, 0x31] j) ∧
    prevalidate_fails [0x61, 0x3D, 0x31] 0 = false := by
  have h1 : ∃ j, j < ([0x61, 0x00] : List Nat).length ∧ forbiddenAt [0x61, 0x00] j := by
    refine ⟨1, by norm_num, ?_⟩
    unfold forbiddenAt
    left
    norm_num
  have h3 : ∀ j, j < ([0x61, 0x3D, 0x31] : List Nat).length →
      ¬ forbiddenAt [0x61, 0x3D, 0x31] j := by
    intro j hj
    unfold forbiddenAt
    have hj3 : j = 0 ∨ j = 1 ∨ j = 2 := by
      simp only [List.length_cons, List.length_nil] at hj
      omega
    rcases hj3 with rfl | rfl | rfl <;> norm_num
  exact ⟨h1, parse_rejects_forbidden_control_bytes.1 [0x61, 0x00] 7 h1,
    h3, parse_rejects_forbidden_control_bytes.2 [0x61, 0x3D, 0x31] h3⟩


/-- C7 (code bug): the digit-collecting loop for prefixed integer
literals accepts `_` anywhere and simply strips it, so underscore
placement is not validated: parsing the value `0x_1` yields Integer 1
with no error, parsing `0x1_` yields Integer 1 with no error (the
claim, the spec and TOML 1.0 all require an error for both), and
parsing `0x1_0` yields Integer 16 as claimed. -/
theorem prefixed_int_underscores_not_validated :
    parse_value [0x30, 0x78, 0x5F, 0x31] 1 { pos := 0, err := none } =
      (.integer 1, { pos := 4, err := none }) ∧
    parse_value [0x30, 0x78, 0x31, 0x5F] 1 { pos := 0, err := none } =
      (.integer 1, { pos := 4, err := none }) ∧
    parse_value [0x30, 0x78, 0x31, 0x5F, 0x30] 1 { pos := 0, err := none } =
      (.integer 16, { pos := 5, err := none }) ∧
    parse [0x78, 0x20, 0x3D, 0x20, 0x30, 0x78, 0x5F, 0x31] 9 =
      (some [([0x78], .integer 1)], { pos := 8, err := none }) := by
  refine ⟨?_, ?_, ?_, ?_⟩ <;>
    simp +decide [parse, parse_document, parse_document_go, parse_key_value_pair,
      parse_dotted_key, parse_dotted_key_go, parse_key, skip_whitespace, skip_whitespace_scalar,
      skip_whitespace_no_nl, skip_whitespace_no_nl_scalar, isWsByte, isWsNoNlByte, scanWhile,
      expect_char, skip_comment, peek, eof, advance, set_error, strBytes,
      set_value_at_path, navigate, updateAt, tfind?, tset, aotMem, aotInsert,
      parse_value, parse_value_number2, parse_value_number, parse_boolean,
      collect_based_digits, cpp_stoll, digitsPrefixVals, digitValInBase, isDigitByte,
      is_hex_char, is_oct_char, is_bin_char, word3_at, isAlnumByte, isBareKeyByte,
      scan_number, isNumTokenByte, byteSlice, stod_accepts, try_parse_datetime,
      try_parse_datetime_date_part, try_parse_datetime_time_only,
      parse_int, parse_int_go, is_value_terminator, prevalidate_fails, is_forbidden_control]

/-- C9 (code bug): `set_value_at_path` performs no array-of-tables
check, so a path introduced by `[[a.b]]` can later be overwritten by a
direct assignment: parsing `[[a.b]]`, then `[a]`, then `b = [1]`
replaces the header-created array of tables at `a.b` with the static
array `[1]` and records no error, where the claim (and TOML 1.0)
requires an error. -/
theorem aot_path_overwritten_by_static_array_assignment :
    parse [91, 91, 97, 46, 98, 93, 93, 10, 91, 97, 93, 10, 98, 32, 61, 32, 91, 49, 93] 32 =
      (some [([97], .table [([98], .array [.integer 1])])], { pos := 19, err := none }) := by
  simp +decide [parse, parse_document, parse_document_go, parse_key_value_pair,
    parse_dotted_key, parse_dotted_key_go, parse_key, skip_whitespace, skip_whitespace_scalar,
    skip_whitespace_no_nl, skip_whitespace_no_nl_scalar, isWsByte, isWsNoNlByte, scanWhile,
    expect_char, skip_comment, peek, eof, advance, set_error, strBytes,
    get_or_create_array_append_table, get_or_create_array_append_table_go,
    get_or_create_table_at_path, get_or_create_table_at_path_go,
    set_value_at_path, navigate, updateAt, tfind?, tset, aotMem, aotInsert,
    parse_value, parse_value_number2, parse_value_number, parse_array, parse_array_go,
    parse_array_skip, parse_inline_table, parse_inline_table_go, parse_boolean,
    collect_based_digits, cpp_stoll, digitsPrefixVals, digitValInBase, isDigitByte,
    is_hex_char, is_oct_char, is_bin_char, word3_at, isAlnumByte, isBareKeyByte,
    scan_number, isNumTokenByte, byteSlice, stod_accepts, try_parse_datetime,
      try_parse_datetime_date_part, try_parse_datetime_time_only,
    parse_int, parse_int_go, is_value_terminator, prevalidate_fails, is_forbidden_control]


theorem byteSlice_cons (input : List Nat) (pos : Nat) (b : Nat) (rest : List Nat)
    (h : byteSlice input pos (pos + (rest.length + 1)) = b :: rest) :
    pos < input.length ∧ input.getD pos 0 = b ∧
      byteSlice input (pos + 1) (pos + 1 + rest.length) = rest := by
  unfold byteSlice at *
  have hadd : pos + (rest.length + 1) - pos = rest.length + 1 := by omega
  rw [hadd] at h
  rcases Decidable.em (pos < input.length) with hlt | hge
  · have hd : input.drop pos = input[pos] :: input.drop (pos + 1) :=
      List.drop_eq_getElem_cons hlt
    rw [hd, List.take_succ_cons] at h
    injection h with h1 h2
    refine ⟨hlt, ?_, ?_⟩
    · rw [List.getD_eq_getElem input 0 hlt, h1]
    · have hadd2 : pos + 1 + rest.length - (pos + 1) = rest.length := by omega
      rw [hadd2, h2]
  · exfalso
    have hnil : input.drop pos = [] := List.drop_eq_nil_of_le (by omega)
    rw [hnil] at h
    simp at h

theorem parse_unicode_escape_go_all_hex (input : List Nat) (hs : List Nat) :
    ∀ (cp0 : Nat) (st : Cursor),
      byteSlice input st.pos (st.pos + hs.length) = hs →
      st.pos + hs.length ≤ input.length →
      (∀ b ∈ hs, ¬ hex_digit b < 0) →
      parse_unicode_escape_go input hs.length cp0 st =
        (.ok (hs.foldl (fun a b => a * 16 + (hex_digit b).toNat) cp0),
          { st with pos := st.pos + hs.length }) := by
  induction hs with
  | nil =>
    intro cp0 st _ _ _
    simp [parse_unicode_escape_go]
  | cons b rest ih =>
    intro cp0 st hsl hinb hhex
    rw [List.length_cons] at hsl hinb
    have hdec := byteSlice_cons input st.pos b rest hsl
    have hdlt := hdec.1
    have hne : eof input st = false := by
      simp [eof]
      omega
    have hb : input[st.pos]?.getD 0 = b := by
      rw [← List.getD_eq_getElem?_getD]
      exact hdec.2.1
    rw [List.length_cons, parse_unicode_escape_go]
    rw [if_neg (by simp [hne])]
    rw [show peek input st = b from by simp [peek, hne, hb]]
    rw [if_neg (hhex b (by simp))]
    have hadv : (advance input st).2 = { st with pos := st.pos + 1 } := by
      simp [advance, hne]
    rw [hadv]
    have hres := ih (cp0 * 16 + (hex_digit b).toNat) { st with pos := st.pos + 1 }
      (by simpa using hdec.2.2) (by simp; omega) (fun x hx => hhex x (by simp [hx]))
    rw [hres]
    simp only [List.foldl_cons]
    congr 1
    simp
    omega

/-- C4: a `\uXXXX` or `\UXXXXXXXX` escape whose hex digits denote a
codepoint `C ≤ 0x10FFFF` outside the surrogate range parses to exactly
the UTF-8 encoding of `C` (the bytes `append_utf8` emits), consuming
the escape and leaving the error state untouched; for a surrogate or
out-of-range codepoint an error is recorded and the replacement
character bytes `EF BF BD` are emitted so scanning continues. -/
theorem unicode_escape_decodes_to_utf8 (input : List Nat) (hs : List Nat) (st : Cursor)
    (esc n : Nat)
    (hform : (esc = 0x75 ∧ n = 4) ∨ (esc = 0x55 ∧ n = 8))
    (hlen : hs.length = n)
    (hsl : byteSlice input st.pos (st.pos + (n + 1)) = esc :: hs)
    (hhex : ∀ b ∈ hs, ¬ hex_digit b < 0) :
    ((hexVal hs ≤ 0x10FFFF ∧ ¬ (0xD800 ≤ hexVal hs ∧ hexVal hs ≤ 0xDFFF)) →
      parse_escape_sequence input st =
        ((append_utf8 [] (hexVal hs)).2, { st with pos := st.pos + 1 + n })) ∧
    ((0x10FFFF < hexVal hs ∨ (0xD800 ≤ hexVal hs ∧ hexVal hs ≤ 0xDFFF)) → st.err = none →
      parse_escape_sequence input st =
        ([0xEF, 0xBF, 0xBD],
          { pos := st.pos + 1 + n,
            err := some (strBytes "Invalid Unicode codepoint in escape") })) := by
  have hsl' : byteSlice input st.pos (st.pos + (hs.length + 1)) = esc :: hs := by
    rw [hlen]
    exact hsl
  have hdec := byteSlice_cons input st.pos esc hs hsl'
  have hdlt := hdec.1
  have hinb : st.pos + (n + 1) ≤ input.length := by
    have hlsl := congrArg List.length hsl
    simp [byteSlice] at hlsl
    omega
  have hne : eof input st = false := by
    simp [eof]
    omega
  have hb : input[st.pos]?.getD 0 = esc := by
    rw [← List.getD_eq_getElem?_getD]
    exact hdec.2.1
  have hadv : advance input st = (esc, { st with pos := st.pos + 1 }) := by
    simp [advance, hne, hb]
  have hgo := parse_unicode_escape_go_all_hex input hs 0 { st with pos := st.pos + 1 }
    (by simpa using hdec.2.2) (by simp; omega) hhex
  have hval : hs.foldl (fun a b => a * 16 + (hex_digit b).toNat) 0 = hexVal hs := rfl
  rw [hval] at hgo
  have hseq : parse_escape_sequence input st =
      parse_unicode_escape input n { st with pos := st.pos + 1 } := by
    unfold parse_escape_sequence
    rw [if_neg (by simp [hne]), hadv]
    rcases hform with ⟨rfl, rfl⟩ | ⟨rfl, rfl⟩ <;> norm_num
  constructor
  · intro hok
    rw [hseq]
    unfold parse_unicode_escape
    rw [← hlen, hgo]
    simp only
    rw [if_neg (by omega)]
  · intro hbad herr
    rw [hseq]
    unfold parse_unicode_escape
    rw [← hlen, hgo]
    simp only
    rw [if_pos (by omega)]
    simp [set_error, herr]

theorem unicode_escape_decodes_to_utf8_witness :
    parse_escape_sequence [0x75, 0x30, 0x30, 0x45, 0x39] { pos := 0, err := none } =
      ([0xC3, 0xA9], { pos := 5, err := none }) ∧
    parse_escape_sequence [0x75, 0x44, 0x38, 0x30, 0x30] { pos := 0, err := none } =
      ([0xEF, 0xBF, 0xBD],
        { pos := 5, err := some (strBytes "Invalid Unicode codepoint in escape") }) := by
  constructor
  · have h := (unicode_escape_decodes_to_utf8 [0x75, 0x30, 0x30, 0x45, 0x39]
      [0x30, 0x30, 0x45, 0x39] { pos := 0, err := none } 0x75 4
      (Or.inl ⟨rfl, rfl⟩) rfl (by decide) (by decide)).1 (by decide)
    rw [h]
    rfl
  · have h := (unicode_escape_decodes_to_utf8 [0x75, 0x44, 0x38, 0x30, 0x30]
      [0x44, 0x38, 0x30, 0x30] { pos := 0, err := none } 0x75 4
      (Or.inl ⟨rfl, rfl⟩) rfl (by decide) (by decide)).2 (by decide) rfl
    rw [h]


theorem peek_lt (input : List Nat) (st : Cursor) (h : st.pos < input.length) :
    peek input st = input.getD st.pos 0 := by
  unfold peek
  rw [if_neg]
  simp [eof]
  omega

theorem advance_lt (input : List Nat) (st : Cursor) (h : st.pos < input.length) :
    advance input st = (input.getD st.pos 0, { st with pos := st.pos + 1 }) := by
  unfold advance
  rw [if_neg]
  simp [eof]
  omega

theorem peek_ge (input : List Nat) (st : Cursor) (h : input.length ≤ st.pos) :
    peek input st = 0 := by
  unfold peek
  rw [if_pos]
  simp [eof]
  omega

theorem scanWhile_of_run (p : Nat → Bool) (input : List Nat) (n : Nat) :
    ∀ pos : Nat, pos + n ≤ input.length →
      (∀ i, i < n → p (input.getD (pos + i) 0) = true) →
      (input.length ≤ pos + n ∨ p (input.getD (pos + n) 0) = false) →
      scanWhile p input pos = pos + n := by
  induction n with
  | zero =>
    intro pos hinb hrun hstop
    have hng : ¬ (pos < input.length ∧ p (input.getD pos 0) = true) := by
      rintro ⟨hlt, hp⟩
      rcases hstop with hl | hf
      · omega
      · rw [Nat.add_zero] at hf
        rw [hf] at hp
        cases hp
    rw [scanWhile, dif_neg hng]
    omega
  | succ n ih =>
    intro pos hinb hrun hstop
    have hp0 : p (input.getD pos 0) = true := by
      have := hrun 0 (by omega)
      rwa [Nat.add_zero] at this
    rw [scanWhile, dif_pos ⟨by omega, hp0⟩]
    have hres := ih (pos + 1) (by omega)
      (fun i hi => by
        have := hrun (i + 1) (by omega)
        rwa [show pos + (i + 1) = pos + 1 + i by omega] at this)
      (by rcases hstop with hl | hf
          · left; omega
          · right; rwa [show pos + 1 + n = pos + (n + 1) by omega])
    rw [hres]
    omega


/-- C8 counterexample: the claimed closing rule ("3 double-quotes not
followed by another double-quote, with up to 2 preceding quotes as
content") is false on the code.  For the body `a""""""` (a run of six
quotes at the end) the code emits a content ending in THREE quotes;
for the body `a""""b"""` the run of four quotes contains 3 quotes
followed by `b` (not a quote), yet the code does not close there: it
continues and returns content `a"b` after consuming all 9 bytes,
not the content `a"` at byte 5 the claimed rule yields. -/
theorem multiline_basic_closing_counterexample :
    parse_multiline_basic_string [0x61, 0x22, 0x22, 0x22, 0x22, 0x22, 0x22] 20
        { pos := 0, err := none } =
      ([0x61, 0x22, 0x22, 0x22], { pos := 7, err := none }) ∧
    parse_multiline_basic_string [0x61, 0x22, 0x22, 0x22, 0x22, 0x62, 0x22, 0x22, 0x22] 20
        { pos := 0, err := none } =
      ([0x61, 0x22, 0x62], { pos := 9, err := none }) ∧
    ¬ ([0x61, 0x22, 0x22, 0x22] : List Nat) = [0x61, 0x22, 0x22] ∧
    ¬ ([0x61, 0x22, 0x62] : List Nat) = [0x61, 0x22] := by
  refine ⟨?_, ?_, by decide, by decide⟩ <;>
    simp +decide [parse_multiline_basic_string, parse_multiline_basic_string_go,
      parse_escape_sequence, parse_unicode_escape, parse_unicode_escape_go, hex_digit,
      scanWhile, peek, eof, advance, set_error, strBytes]

/-- C8 (amended): in a multiline basic string, a maximal run of
`n ≥ 3` quotes contributes its first `n - 3` quotes to the content,
and the string closes at the run iff `n = 3` or the run is followed by
end of input, LF, or CR (so a body ending in a run of 5 quotes yields
exactly 2 content quotes before the terminator); a longer run followed
by any other byte contributes `n - 3` content quotes and scanning
continues. -/
theorem multiline_basic_closing_rule (input : List Nat) (fuel : Nat) (acc : List Nat)
    (st : Cursor) (n : Nat) (hn3 : 3 ≤ n) (hinb : st.pos + n ≤ input.length)
    (hrun : ∀ i, i < n → input.getD (st.pos + i) 0 = 0x22)
    (hmax : input.length ≤ st.pos + n ∨ ¬ input.getD (st.pos + n) 0 = 0x22) :
    ((n = 3 ∨ input.length ≤ st.pos + n ∨ input.getD (st.pos + n) 0 = 0x0A ∨
        input.getD (st.pos + n) 0 = 0x0D) →
      parse_multiline_basic_string_go input (fuel + 1) acc st =
        (acc ++ List.replicate (n - 3) 0x22, { st with pos := st.pos + n })) ∧
    (¬ (n = 3 ∨ input.length ≤ st.pos + n ∨ input.getD (st.pos + n) 0 = 0x0A ∨
        input.getD (st.pos + n) 0 = 0x0D) →
      parse_multiline_basic_string_go input (fuel + 1) acc st =
        parse_multiline_basic_string_go input fuel (acc ++ List.replicate (n - 3) 0x22)
          { st with pos := st.pos + n }) ∧
    parse_multiline_basic_string [0x78, 0x22, 0x22, 0x22, 0x22, 0x22] 8
        { pos := 0, err := none } =
      ([0x78, 0x22, 0x22], { pos := 6, err := none }) := by
  have hq0 : input.getD st.pos 0 = 0x22 := by
    have h := hrun 0 (by omega)
    rwa [Nat.add_zero] at h
  have hlt : st.pos < input.length := by omega
  have hscan : scanWhile (fun b => b = 0x22) input st.pos = st.pos + n := by
    apply scanWhile_of_run
    · omega
    · intro i hi
      simp only [hrun i hi]
      decide
    · rcases hmax with h | h
      · exact Or.inl h
      · right
        simp only [decide_eq_false_iff_not]
        exact h
  have hpeek : peek input st = 0x22 := by
    rw [peek_lt input st hlt, hq0]
  have heq : parse_multiline_basic_string_go input (fuel + 1) acc st =
      if n = 3 ∨ eof input { st with pos := st.pos + n } = true ∨
          peek input { st with pos := st.pos + n } = 0x0A ∨
          peek input { st with pos := st.pos + n } = 0x0D then
        (acc ++ List.replicate (n - 3) 0x22, { st with pos := st.pos + n })
      else
        parse_multiline_basic_string_go input fuel (acc ++ List.replicate (n - 3) 0x22)
          { st with pos := st.pos + n } := by
    conv_lhs => rw [parse_multiline_basic_string_go]
    rw [if_neg (show ¬ eof input st = true by simp [eof]; omega)]
    rw [if_pos hpeek]
    simp only [hscan, Nat.add_sub_cancel_left]
    rw [if_pos hn3]
  refine ⟨?_, ?_, ?_⟩
  · intro hclose
    have hcond : n = 3 ∨ eof input { st with pos := st.pos + n } = true ∨
        peek input { st with pos := st.pos + n } = 0x0A ∨
        peek input { st with pos := st.pos + n } = 0x0D := by
      rcases hclose with h | h | h | h
      · exact Or.inl h
      · right
        left
        simp [eof]
        omega
      · by_cases hend : input.length ≤ st.pos + n
        · right
          left
          simp [eof]
          omega
        · right
          right
          left
          rw [peek_lt input _ (by simp; omega)]
          exact h
      · by_cases hend : input.length ≤ st.pos + n
        · right
          left
          simp [eof]
          omega
        · right
          right
          right
          rw [peek_lt input _ (by simp; omega)]
          exact h
    rw [heq, if_pos hcond]
  · intro hnc
    push_neg at hnc
    have hcond' : ¬ (n = 3 ∨ eof input { st with pos := st.pos + n } = true ∨
        peek input { st with pos := st.pos + n } = 0x0A ∨
        peek input { st with pos := st.pos + n } = 0x0D) := by
      push_neg
      refine ⟨hnc.1, ?_, ?_, ?_⟩
      · simp [eof]
        omega
      · rw [peek_lt input _ (by simp; omega)]
        exact hnc.2.2.1
      · rw [peek_lt input _ (by simp; omega)]
        exact hnc.2.2.2
    rw [heq, if_neg hcond']
  · simp +decide [parse_multiline_basic_string, parse_multiline_basic_string_go,
      parse_escape_sequence, scanWhile, peek, eof, advance, set_error, strBytes]

theorem multiline_basic_closing_rule_witness :
    parse_multiline_basic_string_go [0x78, 0x22, 0x22, 0x22, 0x22, 0x22] 8 [0x78]
        { pos := 1, err := none } =
      ([0x78, 0x22, 0x22], { pos := 6, err := none }) := by
  have h := (multiline_basic_closing_rule [0x78, 0x22, 0x22, 0x22, 0x22, 0x22] 7 [0x78]
    { pos := 1, err := none } 5 (by omega) (by simp)
    (by decide) (by decide)).1 (by decide)
  rw [h]
  rfl

theorem set_error_pos (msg : List Nat) (st : Cursor) : (set_error msg st).pos = st.pos := by
  unfold set_error
  split_ifs <;> rfl

theorem scanWhile_le (p : Nat → Bool) (input : List Nat) (pos : Nat) :
    pos ≤ scanWhile p input pos := by
  rw [scanWhile_eq]
  omega

theorem parse_int_go_le (input : List Nat) (maxD : Nat) (pos : Nat) (v : Int) (n : Nat) :
    pos ≤ (parse_int_go input maxD pos v n).2.1 := by
  induction pos, v, n using parse_int_go.induct input maxD with
  | case1 pos v n h ih =>
    rw [parse_int_go, dif_pos h]
    omega
  | case2 pos v n h =>
    rw [parse_int_go, dif_neg h]

theorem parse_int_le (input : List Nat) (pos minD maxD : Nat) :
    pos ≤ (parse_int input pos minD maxD).2.2 := by
  unfold parse_int
  split_ifs with h1
  · rfl
  · have hle := parse_int_go_le input maxD pos 0 0
    rcases hgo : parse_int_go input maxD pos 0 0 with ⟨v, pos', n⟩
    rw [hgo] at hle
    simp only [hgo]
    split_ifs <;> exact hle

theorem tpd_finish_frame (input : List Nat) (st : Cursor) (start : Nat)
    (year month day hour minute second : Int) (fracDigits : List Nat) (p : Nat)
    (hasOffset : Bool) (offsetMinutes : Int) :
    ((try_parse_datetime_finish input st start year month day hour minute second fracDigits p
        hasOffset offsetMinutes).1 = none →
      (try_parse_datetime_finish input st start year month day hour minute second fracDigits p
        hasOffset offsetMinutes).2.pos = st.pos) ∧
    (∀ v, (try_parse_datetime_finish input st start year month day hour minute second fracDigits p
        hasOffset offsetMinutes).1 = some v →
      (try_parse_datetime_finish input st start year month day hour minute second fracDigits p
        hasOffset offsetMinutes).2.pos = p) := by
  simp only [try_parse_datetime_finish]
  split_ifs <;>
    refine ⟨fun h => ?_, fun v hv => ?_⟩ <;>
    simp_all [set_error_pos]

theorem tpd_offset_part_frame (input : List Nat) (st : Cursor) (start : Nat)
    (year month day hour minute second : Int) (fracDigits : List Nat) (p4 : Nat) :
    ((try_parse_datetime_offset_part input st start year month day hour minute second
        fracDigits p4).1 = none →
      (try_parse_datetime_offset_part input st start year month day hour minute second
        fracDigits p4).2.pos = st.pos) ∧
    (∀ v, (try_parse_datetime_offset_part input st start year month day hour minute second
        fracDigits p4).1 = some v →
      p4 ≤ (try_parse_datetime_offset_part input st start year month day hour minute second
        fracDigits p4).2.pos) := by
  rcases hq1 : parse_int input (p4 + 1) 2 2 with ⟨okOh, oh, q1⟩
  have hle0 : p4 + 1 ≤ q1 := by
    have h := parse_int_le input (p4 + 1) 2 2
    rw [hq1] at h
    exact h
  rcases hq2 : parse_int input (q1 + 1) 2 2 with ⟨okOm, om, q2⟩
  have hle2 : q1 + 1 ≤ q2 := by
    have h := parse_int_le input (q1 + 1) 2 2
    rw [hq2] at h
    exact h
  simp only [try_parse_datetime_offset_part, hq1, hq2]
  split_ifs <;>
    first
    | exact ⟨fun _ => set_error_pos _ _, fun v hv => by cases hv⟩
    | (refine ⟨(tpd_finish_frame input st start year month day hour minute second _ _ _ _).1,
        fun v hv => ?_⟩
       have hx := (tpd_finish_frame input st start year month day hour minute second _ _ _ _).2 v hv
       omega)

theorem tpd_time_part_frame (input : List Nat) (st : Cursor) (start : Nat)
    (year month day : Int) (p : Nat) :
    ((try_parse_datetime_time_part input st start year month day p).1 = none →
      (try_parse_datetime_time_part input st start year month day p).2.pos = st.pos) ∧
    (∀ v, (try_parse_datetime_time_part input st start year month day p).1 = some v →
      p ≤ (try_parse_datetime_time_part input st start year month day p).2.pos) := by
  rcases h1 : parse_int input p 2 2 with ⟨okH, hour, p1⟩
  have hle1 : p ≤ p1 := by
    have h := parse_int_le input p 2 2
    rw [h1] at h
    exact h
  rcases h2 : parse_int input (p1 + 1) 2 2 with ⟨okMin, minute, p2⟩
  have hle2 : p1 + 1 ≤ p2 := by
    have h := parse_int_le input (p1 + 1) 2 2
    rw [h2] at h
    exact h
  rcases h3 : parse_int input (p2 + 1) 2 2 with ⟨okS, second, p3⟩
  have hle3 : p2 + 1 ≤ p3 := by
    have h := parse_int_le input (p2 + 1) 2 2
    rw [h3] at h
    exact h
  have hle4 : p3 + 1 ≤ scanWhile isDigitByte input (p3 + 1) := scanWhile_le _ input (p3 + 1)
  simp only [try_parse_datetime_time_part, h1, h2, h3]
  split_ifs
  · exact ⟨fun _ => set_error_pos _ _, fun v hv => by cases hv⟩
  · exact ⟨fun _ => rfl, fun v hv => by cases hv⟩
  · exact ⟨fun _ => set_error_pos _ _, fun v hv => by cases hv⟩
  · exact ⟨fun _ => rfl, fun v hv => by cases hv⟩
  · exact ⟨fun _ => set_error_pos _ _, fun v hv => by cases hv⟩
  · exact ⟨fun _ => set_error_pos _ _, fun v hv => by cases hv⟩
  · have hf := tpd_offset_part_frame input st start year month day hour minute second
      (byteSlice input (p3 + 1) (scanWhile isDigitByte input (p3 + 1)))
      (scanWhile isDigitByte input (p3 + 1))
    exact ⟨hf.1, fun v hv => by have := hf.2 v hv; omega⟩
  · have hf := tpd_offset_part_frame input st start year month day hour minute second [] p3
    exact ⟨hf.1, fun v hv => by have := hf.2 v hv; omega⟩
  · exact ⟨fun _ => set_error_pos _ _, fun v hv => by cases hv⟩
  · exact And.intro (fun hn => nomatch hn) (fun v hv => Nat.le_refl p)

theorem tpd_date_part_frame (input : List Nat) (st : Cursor) (start : Nat) :
    ((try_parse_datetime_date_part input st start).1 = none →
      (try_parse_datetime_date_part input st start).2.pos = st.pos) ∧
    (∀ v, (try_parse_datetime_date_part input st start).1 = some v →
      start < (try_parse_datetime_date_part input st start).2.pos) := by
  rcases h1 : parse_int input start 4 4 with ⟨okY, year, p1⟩
  have hle1 : start ≤ p1 := by
    have h := parse_int_le input start 4 4
    rw [h1] at h
    exact h
  rcases h2 : parse_int input (p1 + 1) 2 2 with ⟨okM, month, p2⟩
  have hle2 : p1 + 1 ≤ p2 := by
    have h := parse_int_le input (p1 + 1) 2 2
    rw [h2] at h
    exact h
  rcases h3 : parse_int input (p2 + 1) 2 2 with ⟨okD, day, p3⟩
  have hle3 : p2 + 1 ≤ p3 := by
    have h := parse_int_le input (p2 + 1) 2 2
    rw [h3] at h
    exact h
  simp only [try_parse_datetime_date_part, h1, h2, h3]
  by_cases hc1 : ¬ okY = true
  · rw [if_pos hc1]
    exact ⟨fun _ => rfl, fun v hv => by cases hv⟩
  rw [if_neg hc1]
  by_cases hc2 : input.length ≤ p1 ∨ ¬ input.getD p1 0 = 45
  · rw [if_pos hc2]
    exact ⟨fun _ => rfl, fun v hv => by cases hv⟩
  rw [if_neg hc2]
  by_cases hc3 : ¬ okM = true ∨ month < 1 ∨ 12 < month
  · rw [if_pos hc3]
    exact ⟨fun _ => set_error_pos _ _, fun v hv => by cases hv⟩
  rw [if_neg hc3]
  by_cases hc4 : input.length ≤ p2 ∨ ¬ input.getD p2 0 = 45
  · rw [if_pos hc4]
    exact ⟨fun _ => rfl, fun v hv => by cases hv⟩
  rw [if_neg hc4]
  by_cases hc5 : ¬ okD = true ∨ day < 1 ∨ 31 < day
  · rw [if_pos hc5]
    exact ⟨fun _ => set_error_pos _ _, fun v hv => by cases hv⟩
  rw [if_neg hc5]
  by_cases hc6 : max_day_in_month year month < day
  · rw [if_pos hc6]
    exact ⟨fun _ => set_error_pos _ _, fun v hv => by cases hv⟩
  rw [if_neg hc6]
  by_cases hc7 : p3 = input.length
  · rw [if_pos hc7]
    exact And.intro (fun hn => nomatch hn) (fun v hv => by show start < p3; omega)
  rw [if_neg hc7]
  by_cases hc8 : input.getD p3 0 = 32
  · rw [if_pos hc8]
    by_cases hc9 : input.length - p3 < 9
    · rw [if_pos hc9]
      exact And.intro (fun hn => nomatch hn) (fun v hv => by show start < p3; omega)
    rw [if_neg hc9]
    by_cases hc10 : ¬ (8 ≤ input.length - (p3 + 1) ∧
        isDigitByte (input.getD (p3 + 1) 0) = true ∧
        isDigitByte (input.getD (p3 + 1 + 1) 0) = true ∧
        input.getD (p3 + 1 + 2) 0 = 58 ∧
        isDigitByte (input.getD (p3 + 1 + 3) 0) = true ∧
        isDigitByte (input.getD (p3 + 1 + 4) 0) = true ∧
        input.getD (p3 + 1 + 5) 0 = 58 ∧
        isDigitByte (input.getD (p3 + 1 + 6) 0) = true ∧
        isDigitByte (input.getD (p3 + 1 + 7) 0) = true)
    · rw [if_pos hc10]
      exact And.intro (fun hn => nomatch hn) (fun v hv => by show start < p3; omega)
    rw [if_neg hc10]
    have htp := tpd_time_part_frame input st start year month day (p3 + 1)
    exact And.intro htp.1 (fun v hv => by have hx := htp.2 v hv; omega)
  rw [if_neg hc8]
  by_cases hc11 : input.getD p3 0 = 84 ∨ input.getD p3 0 = 116
  · rw [if_pos hc11]
    have htp := tpd_time_part_frame input st start year month day (p3 + 1)
    exact And.intro htp.1 (fun v hv => by have hx := htp.2 v hv; omega)
  rw [if_neg hc11]
  by_cases hc12 : p3 < input.length ∧ ¬ is_value_terminator (input.getD p3 0) = true
  · rw [if_pos hc12]
    exact ⟨fun _ => set_error_pos _ _, fun v hv => by cases hv⟩
  rw [if_neg hc12]
  exact And.intro (fun hn => nomatch hn) (fun v hv => by show start < p3; omega)

theorem tpd_time_only_frame (input : List Nat) (st : Cursor) (start : Nat) :
    ((try_parse_datetime_time_only input st start).1 = none →
      (try_parse_datetime_time_only input st start).2.pos = st.pos) ∧
    (∀ v, (try_parse_datetime_time_only input st start).1 = some v →
      start < (try_parse_datetime_time_only input st start).2.pos) := by
  rcases g1 : parse_int input start 2 2 with ⟨okH, hh, q1⟩
  have gle1 : start ≤ q1 := by
    have hg := parse_int_le input start 2 2
    rw [g1] at hg
    exact hg
  rcases g2 : parse_int input (q1 + 1) 2 2 with ⟨okMin, mm, q2⟩
  have gle2 : q1 + 1 ≤ q2 := by
    have hg := parse_int_le input (q1 + 1) 2 2
    rw [g2] at hg
    exact hg
  rcases g3 : parse_int input (q2 + 1) 2 2 with ⟨okS, ss, q3⟩
  have gle3 : q2 + 1 ≤ q3 := by
    have hg := parse_int_le input (q2 + 1) 2 2
    rw [g3] at hg
    exact hg
  have gle4 : q3 + 1 ≤ scanWhile isDigitByte input (q3 + 1) := scanWhile_le _ input (q3 + 1)
  simp only [try_parse_datetime_time_only, g1, g2, g3]
  by_cases hc1 : ¬ okH = true ∨ 23 < hh
  · rw [if_pos hc1]
    exact ⟨fun _ => set_error_pos _ _, fun v hv => by cases hv⟩
  rw [if_neg hc1]
  by_cases hc2 : input.length ≤ q1 ∨ ¬ input.getD q1 0 = 58
  · rw [if_pos hc2]
    exact ⟨fun _ => rfl, fun v hv => by cases hv⟩
  rw [if_neg hc2]
  by_cases hc3 : ¬ okMin = true ∨ 59 < mm
  · rw [if_pos hc3]
    exact ⟨fun _ => set_error_pos _ _, fun v hv => by cases hv⟩
  rw [if_neg hc3]
  by_cases hc4 : input.length ≤ q2 ∨ ¬ input.getD q2 0 = 58
  · rw [if_pos hc4]
    exact ⟨fun _ => rfl, fun v hv => by cases hv⟩
  rw [if_neg hc4]
  by_cases hc5 : ¬ okS = true ∨ 60 < ss
  · rw [if_pos hc5]
    exact ⟨fun _ => set_error_pos _ _, fun v hv => by cases hv⟩
  rw [if_neg hc5]
  by_cases hc6 : q3 < input.length ∧ input.getD q3 0 = 46
  · rw [if_pos hc6]
    by_cases hc7 : scanWhile isDigitByte input (q3 + 1) < input.length ∧
        ¬ is_value_terminator (input.getD (scanWhile isDigitByte input (q3 + 1)) 0) = true
    · rw [if_pos hc7]
      exact ⟨fun _ => set_error_pos _ _, fun v hv => by cases hv⟩
    rw [if_neg hc7]
    exact And.intro (fun hn => nomatch hn)
      (fun v hv => by show start < scanWhile isDigitByte input (q3 + 1); omega)
  rw [if_neg hc6]
  by_cases hc8 : q3 < input.length ∧ ¬ is_value_terminator (input.getD q3 0) = true
  · rw [if_pos hc8]
    exact ⟨fun _ => set_error_pos _ _, fun v hv => by cases hv⟩
  rw [if_neg hc8]
  exact And.intro (fun hn => nomatch hn) (fun v hv => by show start < q3; omega)

theorem try_parse_datetime_frame_aux (input : List Nat) (st : Cursor) :
    ((try_parse_datetime input st).1 = none → (try_parse_datetime input st).2.pos = st.pos) ∧
    (∀ v, (try_parse_datetime input st).1 = some v →
      st.pos < (try_parse_datetime input st).2.pos) := by
  simp only [try_parse_datetime]
  split_ifs
  · exact tpd_date_part_frame input st st.pos
  · exact tpd_time_only_frame input st st.pos
  · exact ⟨fun _ => rfl, fun v hv => by cases hv⟩

/-- C5: `try_parse_datetime` is speculative: whenever it reports "not
a datetime" (returns no value) the cursor stands exactly at its entry
position, whether or not a sticky error was recorded along the way;
and a value is returned only with the cursor strictly advanced past
the consumed lexeme. -/
theorem try_parse_datetime_restores_cursor (input : List Nat) (st : Cursor) :
    ((try_parse_datetime input st).1 = none → (try_parse_datetime input st).2.pos = st.pos) ∧
    (∀ v, (try_parse_datetime input st).1 = some v →
      st.pos < (try_parse_datetime input st).2.pos) :=
  try_parse_datetime_frame_aux input st

theorem try_parse_datetime_restores_cursor_witness :
    0 < (try_parse_datetime [48, 55, 58, 51, 50, 58, 48, 48] ⟨0, none⟩).2.pos :=
  (try_parse_datetime_restores_cursor [48, 55, 58, 51, 50, 58, 48, 48] ⟨0, none⟩).2
    (.str [48, 55, 58, 51, 50, 58, 48, 48])
    (by simp +decide [try_parse_datetime, try_parse_datetime_time_only, parse_int, parse_int_go,
      isDigitByte, is_value_terminator, byteSlice, scanWhile])

theorem tfind?_tset_self (t : Table) (k : Key) (v : TomlValue) :
    tfind? (tset t k v) k = some v := by
  induction t with
  | nil => simp [tset, tfind?]
  | cons kv rest ih =>
    obtain ⟨k', v'⟩ := kv
    by_cases h : k' = k
    · simp [tset, h, tfind?]
    · simp [tset, h, tfind?, ih]

theorem aotMem_aotInsert_self (aot : AotPaths) (p : List Key) :
    aotMem (aotInsert aot p) p = true := by
  unfold aotInsert
  split_ifs with h
  · exact h
  · simp [aotMem]

theorem aotMem_aotInsert_of_mem (aot : AotPaths) (p q : List Key)
    (h : aotMem aot p = true) : aotMem (aotInsert aot q) p = true := by
  unfold aotInsert
  split_ifs with h2
  · exact h
  · unfold aotMem
    split_ifs <;> simp [h]

theorem set_error_err_ne (msg : List Nat) (st : Cursor) (h : st.err = none) :
    ¬ (set_error msg st).err = none := by
  unfold set_error
  rw [if_pos h]
  simp

theorem any_nonTable_eq (es : List TomlValue) :
    es.any (fun e => match e with | .table _ => false | _ => true) = !es.all isTableVal := by
  induction es with
  | nil => rfl
  | cons e rest ih => cases e <;> simp [isTableVal, ih]

/-- The behaviour of the array-of-tables walk from a subtable `t`, for a
path probing to: absent final key (create, record, return the fresh
table), an all-tables array recorded in the set (append), or an
unusable binding (error, nothing returned). -/
def GocaatSpec (t : Table) (aot : AotPaths) (donePfx path : List Key) (st : Cursor) : Prop :=
  (probe_aot t aot donePfx path = .absent →
    ∃ loc u', get_or_create_array_append_table_go t aot donePfx path st =
        (some loc, u', aotInsert aot (donePfx ++ path), st) ∧
      navigate u' loc = some [] ∧
      probe_aot u' (aotInsert aot (donePfx ++ path)) donePfx path = .arrayElems [.table []]) ∧
  (∀ es, probe_aot t aot donePfx path = .arrayElems es →
    aotMem aot (donePfx ++ path) = true → es.all isTableVal = true →
    ∃ loc u', get_or_create_array_append_table_go t aot donePfx path st =
        (some loc, u', aot, st) ∧
      navigate u' loc = some [] ∧
      probe_aot u' aot donePfx path = .arrayElems (es ++ [.table []])) ∧
  ((probe_aot t aot donePfx path = .otherValue ∨
    ∃ es, probe_aot t aot donePfx path = .arrayElems es ∧
      aotMem aot (donePfx ++ path) = false) →
    (get_or_create_array_append_table_go t aot donePfx path st).1 = none ∧
    (st.err = none →
      ¬ (get_or_create_array_append_table_go t aot donePfx path st).2.2.2.err = none))

theorem gocaat_vacuous (t : Table) (aot : AotPaths) (donePfx path : List Key) (st : Cursor)
    (hp : probe_aot t aot donePfx path = .walkFail) :
    GocaatSpec t aot donePfx path st := by
  refine ⟨fun h => ?_, fun es' h _ _ => ?_, fun h => ?_⟩
  · rw [hp] at h; nomatch h
  · rw [hp] at h; nomatch h
  · rcases h with h | ⟨es', h, _⟩ <;> (rw [hp] at h; nomatch h)

theorem gocaat_other_vacuous (t : Table) (aot : AotPaths) (donePfx path : List Key)
    (st : Cursor) (hp : probe_aot t aot donePfx path = .otherValue)
    (h1 : (get_or_create_array_append_table_go t aot donePfx path st).1 = none)
    (h2 : st.err = none →
      ¬ (get_or_create_array_append_table_go t aot donePfx path st).2.2.2.err = none) :
    GocaatSpec t aot donePfx path st := by
  refine ⟨fun h => ?_, fun es' h _ _ => ?_, fun h => ⟨h1, h2⟩⟩
  · rw [hp] at h; nomatch h
  · rw [hp] at h; nomatch h

theorem gocaat_go_master (path : List Key) :
    ∀ (t : Table) (aot : AotPaths) (donePfx : List Key) (st : Cursor), path ≠ [] →
    GocaatSpec t aot donePfx path st := by
  induction path with
  | nil => exact fun t aot donePfx st hne => absurd rfl hne
  | cons k rest ih =>
    intro t aot donePfx st hne
    cases rest with
    | nil =>
      rcases htk : tfind? t k with _ | v
      · have hp : probe_aot t aot donePfx [k] = .absent := by simp [probe_aot, htk]
        refine ⟨fun _ => ?_, fun es' h _ _ => ?_, fun h => ?_⟩
        · refine ⟨[.arrLast k], tset t k (.array [.table []]), ?_, ?_, ?_⟩
          · simp [get_or_create_array_append_table_go, htk]
          · simp [navigate, tfind?_tset_self]
          · simp [probe_aot, tfind?_tset_self]
        · rw [hp] at h; nomatch h
        · rcases h with h | ⟨es', h, _⟩ <;> (rw [hp] at h; nomatch h)
      · cases v with
        | array es =>
          have hp : probe_aot t aot donePfx [k] = .arrayElems es := by simp [probe_aot, htk]
          refine ⟨fun h => ?_, fun es' h hmem hall => ?_, fun h => ?_⟩
          · rw [hp] at h; nomatch h
          · rw [hp] at h
            injection h with hes
            subst hes
            have hanyf : es.any (fun e => match e with | .table _ => false | _ => true) = false := by
              rw [any_nonTable_eq, hall]
              rfl
            refine ⟨[.arrLast k], tset t k (.array (es ++ [.table []])), ?_, ?_, ?_⟩
            · simp [get_or_create_array_append_table_go, htk, hmem, hanyf]
            · simp [navigate, tfind?_tset_self, List.getLast?_concat]
            · simp [probe_aot, tfind?_tset_self]
          · rcases h with h | ⟨es', h, hmem⟩
            · rw [hp] at h; nomatch h
            · rw [hp] at h
              injection h with hes
              subst hes
              have hcond : ¬ aotMem aot (donePfx ++ [k]) = true := by simp [hmem]
              constructor
              · simp [get_or_create_array_append_table_go, htk, hcond]
              · intro hn
                simp [get_or_create_array_append_table_go, htk, hcond, set_error, hn]
        | integer n =>
          exact gocaat_other_vacuous t aot donePfx [k] st
            (by simp [probe_aot, htk]) (by simp [get_or_create_array_append_table_go, htk])
            (fun hn => by simp [get_or_create_array_append_table_go, htk, set_error, hn])
        | float f =>
          exact gocaat_other_vacuous t aot donePfx [k] st
            (by simp [probe_aot, htk]) (by simp [get_or_create_array_append_table_go, htk])
            (fun hn => by simp [get_or_create_array_append_table_go, htk, set_error, hn])
        | boolean b =>
          exact gocaat_other_vacuous t aot donePfx [k] st
            (by simp [probe_aot, htk]) (by simp [get_or_create_array_append_table_go, htk])
            (fun hn => by simp [get_or_create_array_append_table_go, htk, set_error, hn])
        | str sb =>
          exact gocaat_other_vacuous t aot donePfx [k] st
            (by simp [probe_aot, htk]) (by simp [get_or_create_array_append_table_go, htk])
            (fun hn => by simp [get_or_create_array_append_table_go, htk, set_error, hn])
        | datetime secs =>
          exact gocaat_other_vacuous t aot donePfx [k] st
            (by simp [probe_aot, htk]) (by simp [get_or_create_array_append_table_go, htk])
            (fun hn => by simp [get_or_create_array_append_table_go, htk, set_error, hn])
        | datetimeOffset ts fr om =>
          exact gocaat_other_vacuous t aot donePfx [k] st
            (by simp [probe_aot, htk]) (by simp [get_or_create_array_append_table_go, htk])
            (fun hn => by simp [get_or_create_array_append_table_go, htk, set_error, hn])
        | table u =>
          exact gocaat_other_vacuous t aot donePfx [k] st
            (by simp [probe_aot, htk]) (by simp [get_or_create_array_append_table_go, htk])
            (fun hn => by simp [get_or_create_array_append_table_go, htk, set_error, hn])
    | cons r rs =>
      have happ : (donePfx ++ [k]) ++ (r :: rs) = donePfx ++ (k :: r :: rs) := by simp
      rcases htk : tfind? t k with _ | v
      · obtain ⟨ih1, ih2, ih3⟩ := ih [] aot (donePfx ++ [k]) st (by simp)
        have hp : probe_aot t aot donePfx (k :: r :: rs) =
            probe_aot [] aot (donePfx ++ [k]) (r :: rs) := by
          simp [probe_aot, htk]
        refine ⟨fun h => ?_, fun es' h hmem hall => ?_, fun h => ?_⟩
        · rw [hp] at h
          obtain ⟨loc, u', heq, hnav, hprobe⟩ := ih1 h
          rw [happ] at heq hprobe
          refine ⟨.tbl k :: loc, tset t k (.table u'), ?_, ?_, ?_⟩
          · simp [get_or_create_array_append_table_go, htk, heq]
          · simp [navigate, tfind?_tset_self, hnav]
          · simp only [probe_aot, tfind?_tset_self]
            exact hprobe
        · rw [hp] at h
          rw [← happ] at hmem
          obtain ⟨loc, u', heq, hnav, hprobe⟩ := ih2 es' h hmem hall
          refine ⟨.tbl k :: loc, tset t k (.table u'), ?_, ?_, ?_⟩
          · simp [get_or_create_array_append_table_go, htk, heq]
          · simp [navigate, tfind?_tset_self, hnav]
          · simp only [probe_aot, tfind?_tset_self]
            exact hprobe
        · have h' : probe_aot [] aot (donePfx ++ [k]) (r :: rs) = .otherValue ∨
              ∃ es, probe_aot [] aot (donePfx ++ [k]) (r :: rs) = .arrayElems es ∧
                aotMem aot ((donePfx ++ [k]) ++ (r :: rs)) = false := by
            rw [← hp, happ]
            exact h
          have h3 := ih3 h'
          rcases hgo : get_or_create_array_append_table_go [] aot (donePfx ++ [k]) (r :: rs) st
            with ⟨loc?, u', aot', st'⟩
          rw [hgo] at h3
          have hl : loc? = none := h3.1
          have he : st.err = none → ¬ st'.err = none := h3.2
          constructor
          · simp [get_or_create_array_append_table_go, htk, hgo, hl]
          · intro hn
            simpa [get_or_create_array_append_table_go, htk, hgo] using he hn
      · cases v with
        | table u =>
          obtain ⟨ih1, ih2, ih3⟩ := ih u aot (donePfx ++ [k]) st (by simp)
          have hp : probe_aot t aot donePfx (k :: r :: rs) =
              probe_aot u aot (donePfx ++ [k]) (r :: rs) := by
            simp [probe_aot, htk]
          refine ⟨fun h => ?_, fun es' h hmem hall => ?_, fun h => ?_⟩
          · rw [hp] at h
            obtain ⟨loc, u', heq, hnav, hprobe⟩ := ih1 h
            rw [happ] at heq hprobe
            refine ⟨.tbl k :: loc, tset t k (.table u'), ?_, ?_, ?_⟩
            · simp [get_or_create_array_append_table_go, htk, heq]
            · simp [navigate, tfind?_tset_self, hnav]
            · simp only [probe_aot, tfind?_tset_self]
              exact hprobe
          · rw [hp] at h
            rw [← happ] at hmem
            obtain ⟨loc, u', heq, hnav, hprobe⟩ := ih2 es' h hmem hall
            refine ⟨.tbl k :: loc, tset t k (.table u'), ?_, ?_, ?_⟩
            · simp [get_or_create_array_append_table_go, htk, heq]
            · simp [navigate, tfind?_tset_self, hnav]
            · simp only [probe_aot, tfind?_tset_self]
              exact hprobe
          · have h' : probe_aot u aot (donePfx ++ [k]) (r :: rs) = .otherValue ∨
                ∃ es, probe_aot u aot (donePfx ++ [k]) (r :: rs) = .arrayElems es ∧
                  aotMem aot ((donePfx ++ [k]) ++ (r :: rs)) = false := by
              rw [← hp, happ]
              exact h
            have h3 := ih3 h'
            rcases hgo : get_or_create_array_append_table_go u aot (donePfx ++ [k]) (r :: rs) st
              with ⟨loc?, u', aot', st'⟩
            rw [hgo] at h3
            have hl : loc? = none := h3.1
            have he : st.err = none → ¬ st'.err = none := h3.2
            constructor
            · simp [get_or_create_array_append_table_go, htk, hgo, hl]
            · intro hn
              simpa [get_or_create_array_append_table_go, htk, hgo] using he hn
        | array es =>
          by_cases hmem2 : aotMem aot (donePfx ++ [k]) = true
          · by_cases hemp : es.isEmpty = true
            · exact gocaat_vacuous t aot donePfx (k :: r :: rs) st
                (by simp [probe_aot, htk, hmem2, hemp])
            · rcases hlast : es.getLast? with _ | lv
              · exact gocaat_vacuous t aot donePfx (k :: r :: rs) st
                  (by simp [probe_aot, htk, hmem2, hemp, hlast])
              · cases lv with
                | table u =>
                  obtain ⟨ih1, ih2, ih3⟩ := ih u aot (donePfx ++ [k]) st (by simp)
                  have hp : probe_aot t aot donePfx (k :: r :: rs) =
                      probe_aot u aot (donePfx ++ [k]) (r :: rs) := by
                    simp [probe_aot, htk, hmem2, hemp, hlast]
                  have hne2 : (es.dropLast ++ [TomlValue.table u]).isEmpty = false := by simp
                  refine ⟨fun h => ?_, fun es' h hmem hall => ?_, fun h => ?_⟩
                  · rw [hp] at h
                    obtain ⟨loc, u', heq, hnav, hprobe⟩ := ih1 h
                    rw [happ] at heq hprobe
                    have hm' : aotMem (aotInsert aot (donePfx ++ (k :: r :: rs)))
                        (donePfx ++ [k]) = true := aotMem_aotInsert_of_mem _ _ _ hmem2
                    refine ⟨.arrLast k :: loc,
                      tset t k (.array (es.dropLast ++ [.table u'])), ?_, ?_, ?_⟩
                    · simp [get_or_create_array_append_table_go, htk, hmem2, hemp, hlast, heq]
                    · simp [navigate, tfind?_tset_self, List.getLast?_concat, hnav]
                    · simp only [probe_aot, tfind?_tset_self]
                      simp [hm', List.getLast?_concat, hprobe]
                  · rw [hp] at h
                    rw [← happ] at hmem
                    obtain ⟨loc, u', heq, hnav, hprobe⟩ := ih2 es' h hmem hall
                    refine ⟨.arrLast k :: loc,
                      tset t k (.array (es.dropLast ++ [.table u'])), ?_, ?_, ?_⟩
                    · simp [get_or_create_array_append_table_go, htk, hmem2, hemp, hlast, heq]
                    · simp [navigate, tfind?_tset_self, List.getLast?_concat, hnav]
                    · simp only [probe_aot, tfind?_tset_self]
                      simp [hmem2, List.getLast?_concat, hprobe]
                  · have h' : probe_aot u aot (donePfx ++ [k]) (r :: rs) = .otherValue ∨
                        ∃ es2, probe_aot u aot (donePfx ++ [k]) (r :: rs) = .arrayElems es2 ∧
                          aotMem aot ((donePfx ++ [k]) ++ (r :: rs)) = false := by
                      rw [← hp, happ]
                      exact h
                    have h3 := ih3 h'
                    rcases hgo : get_or_create_array_append_table_go u aot (donePfx ++ [k])
                        (r :: rs) st with ⟨loc?, u', aot', st'⟩
                    rw [hgo] at h3
                    have hl : loc? = none := h3.1
                    have he : st.err = none → ¬ st'.err = none := h3.2
                    constructor
                    · simp [get_or_create_array_append_table_go, htk, hmem2, hemp, hlast, hgo, hl]
                    · intro hn
                      simpa [get_or_create_array_append_table_go, htk, hmem2, hemp, hlast, hgo]
                        using he hn
                | integer n =>
                  exact gocaat_vacuous t aot donePfx (k :: r :: rs) st
                    (by simp [probe_aot, htk, hmem2, hemp, hlast])
                | float f =>
                  exact gocaat_vacuous t aot donePfx (k :: r :: rs) st
                    (by simp [probe_aot, htk, hmem2, hemp, hlast])
                | boolean b =>
                  exact gocaat_vacuous t aot donePfx (k :: r :: rs) st
                    (by simp [probe_aot, htk, hmem2, hemp, hlast])
                | str sb =>
                  exact gocaat_vacuous t aot donePfx (k :: r :: rs) st
                    (by simp [probe_aot, htk, hmem2, hemp, hlast])
                | datetime secs =>
                  exact gocaat_vacuous t aot donePfx (k :: r :: rs) st
                    (by simp [probe_aot, htk, hmem2, hemp, hlast])
                | datetimeOffset ts fr om =>
                  exact gocaat_vacuous t aot donePfx (k :: r :: rs) st
                    (by simp [probe_aot, htk, hmem2, hemp, hlast])
                | array es2 =>
                  exact gocaat_vacuous t aot donePfx (k :: r :: rs) st
                    (by simp [probe_aot, htk, hmem2, hemp, hlast])
          · exact gocaat_vacuous t aot donePfx (k :: r :: rs) st
              (by simp [probe_aot, htk, hmem2])
        | integer n =>
          exact gocaat_vacuous t aot donePfx (k :: r :: rs) st (by simp [probe_aot, htk])
        | float f =>
          exact gocaat_vacuous t aot donePfx (k :: r :: rs) st (by simp [probe_aot, htk])
        | boolean b =>
          exact gocaat_vacuous t aot donePfx (k :: r :: rs) st (by simp [probe_aot, htk])
        | str sb =>
          exact gocaat_vacuous t aot donePfx (k :: r :: rs) st (by simp [probe_aot, htk])
        | datetime secs =>
          exact gocaat_vacuous t aot donePfx (k :: r :: rs) st (by simp [probe_aot, htk])
        | datetimeOffset ts fr om =>
          exact gocaat_vacuous t aot donePfx (k :: r :: rs) st (by simp [probe_aot, htk])

theorem gocaat_eq_go (root : Table) (aot : AotPaths) (path : List Key) (st : Cursor)
    (hne : path ≠ []) :
    get_or_create_array_append_table root aot path st =
      get_or_create_array_append_table_go root aot [] path st := by
  cases path with
  | nil => exact absurd rfl hne
  | cons k rest => rfl

theorem aot_iter_append (path : List Key) (hne : path ≠ []) :
    ∀ (n : Nat) (root : Table) (aot : AotPaths) (st : Cursor) (es : List TomlValue),
    probe_aot root aot [] path = .arrayElems es → aotMem aot path = true →
    es.all isTableVal = true →
    probe_aot (aot_header_iter path n (root, aot, st)).1
        (aot_header_iter path n (root, aot, st)).2.1 [] path =
      .arrayElems (es ++ List.replicate n (.table [])) ∧
    (aot_header_iter path n (root, aot, st)).2.1 = aot ∧
    (aot_header_iter path n (root, aot, st)).2.2 = st := by
  intro n
  induction n with
  | zero =>
    intro root aot st es hp hmem hall
    simp [aot_header_iter, hp]
  | succ m ihm =>
    intro root aot st es hp hmem hall
    obtain ⟨_, m2, _⟩ := gocaat_go_master path root aot [] st hne
    obtain ⟨loc, u', heq, hnav, hprobe⟩ := m2 es hp (by simpa using hmem) hall
    have hw : get_or_create_array_append_table root aot path st = (some loc, u', aot, st) := by
      rw [gocaat_eq_go root aot path st hne, heq]
    have hiter : aot_header_iter path (m + 1) (root, aot, st) =
        aot_header_iter path m (u', aot, st) := by
      simp [aot_header_iter, hw]
    rw [hiter]
    have hstep := ihm u' aot st (es ++ [.table []]) hprobe hmem
      (by simp [List.all_append, hall, isTableVal])
    rcases hstep with ⟨ha, hb, hc⟩
    refine ⟨?_, hb, hc⟩
    rw [ha]
    congr 1
    simp [List.replicate_succ, List.append_assoc]

/-- C1: `get_or_create_array_append_table` implements the
array-of-tables header semantics: when the walk reaches the parent and
the final key is absent, the full path is recorded in the
array-of-tables set, the key is bound to a new array holding one fresh
empty table, and the returned location points at that fresh table;
iterating `[[path]]` n + 1 times from such a state yields an array of
n + 1 tables in occurrence order with the cursor untouched; when the
key is bound to an array of tables recorded in the set, a fresh empty
table is appended and returned; and when the key is bound to any other
value, or to an array not recorded in the set, an error is recorded
and no table location is returned. -/
theorem array_of_tables_header_create_append_error (root : Table) (aot : AotPaths)
    (path : List Key) (st : Cursor) (hne : path ≠ []) :
    (probe_aot root aot [] path = .absent →
      (∃ loc u', get_or_create_array_append_table root aot path st =
          (some loc, u', aotInsert aot path, st) ∧
        navigate u' loc = some [] ∧
        probe_aot u' (aotInsert aot path) [] path = .arrayElems [.table []]) ∧
      (∀ n, probe_aot (aot_header_iter path (n + 1) (root, aot, st)).1
          (aot_header_iter path (n + 1) (root, aot, st)).2.1 [] path =
          .arrayElems (List.replicate (n + 1) (.table [])) ∧
        (aot_header_iter path (n + 1) (root, aot, st)).2.2 = st)) ∧
    (∀ es, probe_aot root aot [] path = .arrayElems es → aotMem aot path = true →
      es.all isTableVal = true →
      ∃ loc u', get_or_create_array_append_table root aot path st =
          (some loc, u', aot, st) ∧
        navigate u' loc = some [] ∧
        probe_aot u' aot [] path = .arrayElems (es ++ [.table []])) ∧
    ((probe_aot root aot [] path = .otherValue ∨
      ∃ es, probe_aot root aot [] path = .arrayElems es ∧ aotMem aot path = false) →
      (get_or_create_array_append_table root aot path st).1 = none ∧
      (st.err = none →
        ¬ (get_or_create_array_append_table root aot path st).2.2.2.err = none)) := by
  obtain ⟨m1, m2, m3⟩ := gocaat_go_master path root aot [] st hne
  refine ⟨fun habs => ⟨?_, ?_⟩, fun es hp hmem hall => ?_, fun h => ?_⟩
  · obtain ⟨loc, u', heq, hnav, hprobe⟩ := m1 habs
    refine ⟨loc, u', ?_, hnav, by simpa using hprobe⟩
    rw [gocaat_eq_go root aot path st hne, heq]
    simp
  · intro n
    obtain ⟨loc, u', heq, hnav, hprobe⟩ := m1 habs
    have hw : get_or_create_array_append_table root aot path st =
        (some loc, u', aotInsert aot path, st) := by
      rw [gocaat_eq_go root aot path st hne, heq]
      simp
    have hiter : aot_header_iter path (n + 1) (root, aot, st) =
        aot_header_iter path n (u', aotInsert aot path, st) := by
      simp [aot_header_iter, hw]
    rw [hiter]
    have hmem' : aotMem (aotInsert aot path) path = true := aotMem_aotInsert_self aot path
    have h2 := aot_iter_append path hne n u' (aotInsert aot path) st [.table []]
      (by simpa using hprobe) hmem' (by simp [isTableVal])
    rcases h2 with ⟨ha, hb, hc⟩
    refine ⟨?_, hc⟩
    rw [ha]
    simp [List.replicate_succ]
  · obtain ⟨loc, u', heq, hnav, hprobe⟩ := m2 es hp (by simpa using hmem) hall
    refine ⟨loc, u', ?_, hnav, hprobe⟩
    rw [gocaat_eq_go root aot path st hne]
    exact heq
  · have h' : probe_aot root aot [] path = .otherValue ∨
        ∃ es, probe_aot root aot [] path = .arrayElems es ∧
          aotMem aot ([] ++ path) = false := by simpa using h
    have h3 := m3 h'
    rw [gocaat_eq_go root aot path st hne]
    exact h3

theorem array_of_tables_header_create_append_error_witness :
    probe_aot (aot_header_iter [[97]] 2 ([], [], ⟨0, none⟩)).1
        (aot_header_iter [[97]] 2 ([], [], ⟨0, none⟩)).2.1 [] [[97]] =
      .arrayElems [.table [], .table []] := by
  have h := (array_of_tables_header_create_append_error [] [] [[97]] ⟨0, none⟩
    (by simp)).1 (by simp [probe_aot, tfind?])
  have h2 := (h.2 1).1
  simpa using h2

end FastToml
